import Mathlib

/-!
Verification development for the PVM / Gross-Margin Bridge tool.

The JavaScript sources (csv-parser.js, period-utils.js, bridge-calculator.js,
the aggregator module and the CONFIG module) are shallowly embedded below.
JavaScript numbers are modelled as exact rationals extended with NaN and the
two infinities (`JsNum`); JS `Date` objects (always constructed at local
midnight in this code base) are modelled as normalized civil triples
(year, month, day), ordered lexicographically, which agrees with the
`getTime()` ordering used by the sources.  JS strings are Lean strings,
manipulated through their character lists.
-/

/-! ## JS string primitives -/

/-- Whitespace recognised by JS `trim` / `parseFloat` (ASCII subset; the
sources never feed exotic Unicode whitespace to these helpers). -/
def jsWhitespaceB (c : Char) : Bool :=
  c == ' ' || c == '\t' || c == '\n' || c == '\r' || c == '\x0b' || c == '\x0c'

/-- Both-ends trim on character lists (JS `String.prototype.trim`). -/
def trimChars (cs : List Char) : List Char :=
  ((cs.dropWhile jsWhitespaceB).reverse.dropWhile jsWhitespaceB).reverse

/-- JS `s.trim()`. -/
def jsTrim (s : String) : String := String.mk (trimChars s.data)

/-- JS `s.split(sep)` for a one-character separator: always returns at least
one (possibly empty) part. -/
def splitChar (sep : Char) : List Char → List (List Char)
  | [] => [[]]
  | c :: rest =>
    let r := splitChar sep rest
    if c = sep then [] :: r
    else
      match r with
      | h :: t => (c :: h) :: t
      | [] => [[c]]

def digitVal (c : Char) : ℕ := c.toNat - 48

def digitsToNat (cs : List Char) : ℕ := cs.foldl (fun a c => a * 10 + digitVal c) 0

/-- Decimal digit characters of a natural number, fuel-indexed so that the
recursion is structural (the kernel can evaluate it); `natDigits` supplies
ample fuel. -/
def natDigitsF : ℕ → ℕ → List Char
  | 0, n => [Char.ofNat (48 + n)]
  | fuel + 1, n =>
    if n < 10 then [Char.ofNat (48 + n)]
    else natDigitsF fuel (n / 10) ++ [Char.ofNat (48 + n % 10)]

/-- JS `String(n)` for a nonnegative integer. -/
def natDigits (n : ℕ) : List Char := natDigitsF n n

/-- JS `String(i)` for an integer. -/
def intStr (i : ℤ) : List Char :=
  if i < 0 then '-' :: natDigits i.natAbs else natDigits i.toNat

/-! ## JS numbers -/

/-- A JS number as used by this code base: NaN, an infinity (`inf true` is
positive infinity), or a finite value modelled as an exact rational. -/
inductive JsNum where
  | nan : JsNum
  | inf : Bool → JsNum
  | num : ℚ → JsNum
deriving DecidableEq

def JsNum.isNaN : JsNum → Bool
  | .nan => true
  | _ => false

/-- JS addition (`+=` in the aggregator). -/
def jadd : JsNum → JsNum → JsNum
  | .nan, _ => .nan
  | _, .nan => .nan
  | .inf b, .inf c => if b = c then .inf b else .nan
  | .inf b, .num _ => .inf b
  | .num _, .inf c => .inf c
  | .num a, .num b => .num (a + b)

def jneg : JsNum → JsNum
  | .nan => .nan
  | .inf b => .inf (!b)
  | .num a => .num (-a)

/-- The JS test `x <= 0` (false on NaN). -/
def jleZero : JsNum → Bool
  | .nan => false
  | .inf b => !b
  | .num a => decide (a ≤ 0)

/-- The JS test `x > k` for a rational bound (false on NaN). -/
def jGt (x : JsNum) (k : ℚ) : Bool :=
  match x with
  | .nan => false
  | .inf b => b
  | .num a => decide (k < a)

/-- The JS test `x <= k` for a rational bound (false on NaN). -/
def jLe (x : JsNum) (k : ℚ) : Bool :=
  match x with
  | .nan => false
  | .inf b => !b
  | .num a => decide (a ≤ k)

/-! ## JS numeric string parsing (`parseFloat`, `parseInt`, `Number`) -/

def takeDigits (cs : List Char) : List Char × List Char :=
  (cs.takeWhile Char.isDigit, cs.dropWhile Char.isDigit)

def fracVal (ds : List Char) : ℚ := (digitsToNat ds : ℚ) / ((10 : ℚ) ^ ds.length)

def expDigits (r : List Char) (pos : Bool) : ℤ :=
  let ds := r.takeWhile Char.isDigit
  if ds.isEmpty then 0
  else if pos then (digitsToNat ds : ℤ) else -(digitsToNat ds : ℤ)

def expValSigned : List Char → ℤ
  | '+' :: r => expDigits r true
  | '-' :: r => expDigits r false
  | r => expDigits r true

/-- Exponent value of a `parseFloat` tail: 0 when absent or malformed (the
longest valid prefix then simply stops before the `e`). -/
def expVal : List Char → ℤ
  | 'e' :: r => expValSigned r
  | 'E' :: r => expValSigned r
  | _ => 0

/-- Longest unsigned decimal-literal prefix value, `parseFloat` style;
`none` when the text does not start with a digit or a dot-digit. -/
def decPrefixVal (cs : List Char) : Option ℚ :=
  let ip := (takeDigits cs).1
  let r1 := (takeDigits cs).2
  let fr : List Char × List Char :=
    match r1 with
    | '.' :: r => takeDigits r
    | _ => ([], r1)
  if ip.isEmpty && fr.1.isEmpty then none
  else some (((digitsToNat ip : ℚ) + fracVal fr.1) * (10 : ℚ) ^ expVal fr.2)

def infinityChars : List Char := "Infinity".data

def jsParseFloatBody (cs : List Char) (neg : Bool) : JsNum :=
  if infinityChars.isPrefixOf cs then JsNum.inf (!neg)
  else
    match decPrefixVal cs with
    | none => JsNum.nan
    | some q => JsNum.num (if neg then -q else q)

def jsParseFloatCore (cs0 : List Char) : JsNum :=
  match cs0.dropWhile jsWhitespaceB with
  | '+' :: r => jsParseFloatBody r false
  | '-' :: r => jsParseFloatBody r true
  | r => jsParseFloatBody r false

/-- JS `parseFloat(s)` (exact-rational model; the double-precision rounding
of the original is immaterial to the properties proved below). -/
def jsParseFloat (s : String) : JsNum := jsParseFloatCore s.data

def jsParseIntSigned (cs : List Char) (neg : Bool) : JsNum :=
  let ds := cs.takeWhile Char.isDigit
  if ds.isEmpty then JsNum.nan
  else JsNum.num (if neg then -(digitsToNat ds : ℚ) else (digitsToNat ds : ℚ))

/-- JS `parseInt(s, 10)`. -/
def jsParseInt (s : String) : JsNum :=
  match s.data.dropWhile jsWhitespaceB with
  | '+' :: r => jsParseIntSigned r false
  | '-' :: r => jsParseIntSigned r true
  | r => jsParseIntSigned r false

def isHexDigitB (c : Char) : Bool :=
  c.isDigit || (decide ('a' ≤ c) && decide (c ≤ 'f')) || (decide ('A' ≤ c) && decide (c ≤ 'F'))

def hexDigitVal (c : Char) : ℕ :=
  if c.isDigit then digitVal c
  else if decide ('a' ≤ c) && decide (c ≤ 'f') then c.toNat - 87
  else c.toNat - 55

def digitsToNatBase (b : ℕ) (cs : List Char) : ℕ :=
  cs.foldl (fun a c => a * b + hexDigitVal c) 0

def expFull (ip fp r : List Char) : Option ℚ :=
  let sg : Bool × List Char :=
    match r with
    | '+' :: r2 => (true, r2)
    | '-' :: r2 => (false, r2)
    | r2 => (true, r2)
  let ds := sg.2.takeWhile Char.isDigit
  if ds.isEmpty ∨ ¬ (sg.2.dropWhile Char.isDigit).isEmpty then none
  else
    let e : ℤ := if sg.1 then (digitsToNat ds : ℤ) else -(digitsToNat ds : ℤ)
    some (((digitsToNat ip : ℚ) + fracVal fp) * (10 : ℚ) ^ e)

def mantissaExpFull (ip fp rest : List Char) : Option ℚ :=
  match rest with
  | [] => some ((digitsToNat ip : ℚ) + fracVal fp)
  | 'e' :: r => expFull ip fp r
  | 'E' :: r => expFull ip fp r
  | _ => none

/-- Full-string unsigned decimal literal (used by JS `Number(...)`). -/
def decFullVal (cs : List Char) : Option ℚ :=
  let ip := (takeDigits cs).1
  let r1 := (takeDigits cs).2
  match r1 with
  | '.' :: r =>
    let fp := (takeDigits r).1
    let r2 := (takeDigits r).2
    if ip.isEmpty ∧ fp.isEmpty then none else mantissaExpFull ip fp r2
  | _ => if ip.isEmpty then none else mantissaExpFull ip [] r1

def jsStrToNumBody (cs : List Char) : JsNum :=
  if cs = infinityChars then JsNum.inf true
  else
    match cs with
    | '0' :: 'x' :: ds => if ds ≠ [] ∧ ds.all isHexDigitB then JsNum.num (digitsToNatBase 16 ds) else JsNum.nan
    | '0' :: 'X' :: ds => if ds ≠ [] ∧ ds.all isHexDigitB then JsNum.num (digitsToNatBase 16 ds) else JsNum.nan
    | '0' :: 'o' :: ds => if ds ≠ [] ∧ ds.all (fun c => decide ('0' ≤ c) && decide (c ≤ '7')) then JsNum.num (digitsToNatBase 8 ds) else JsNum.nan
    | '0' :: 'O' :: ds => if ds ≠ [] ∧ ds.all (fun c => decide ('0' ≤ c) && decide (c ≤ '7')) then JsNum.num (digitsToNatBase 8 ds) else JsNum.nan
    | '0' :: 'b' :: ds => if ds ≠ [] ∧ ds.all (fun c => c = '0' ∨ c = '1') then JsNum.num (digitsToNatBase 2 ds) else JsNum.nan
    | '0' :: 'B' :: ds => if ds ≠ [] ∧ ds.all (fun c => c = '0' ∨ c = '1') then JsNum.num (digitsToNatBase 2 ds) else JsNum.nan
    | _ =>
      match decFullVal cs with
      | some q => JsNum.num q
      | none => JsNum.nan

def jsStrToNumSigned (r : List Char) (neg : Bool) : JsNum :=
  if r = infinityChars then JsNum.inf (!neg)
  else
    match decFullVal r with
    | some q => JsNum.num (if neg then -q else q)
    | none => JsNum.nan

/-- JS `Number(s)` on a string. -/
def jsStrToNum (s : String) : JsNum :=
  match trimChars s.data with
  | [] => JsNum.num 0
  | '+' :: r => jsStrToNumSigned r false
  | '-' :: r => jsStrToNumSigned r true
  | r => jsStrToNumBody r

/-- JS `Number(x)` where `x` may be `undefined` (a missing array element or
object property). -/
def jsNumberOpt : Option String → JsNum
  | none => JsNum.nan
  | some s => jsStrToNum s

/-! ## JS dates

A JS `Date` constructed as `new Date(y, monthIndex, day)` at local midnight is
modelled by its normalized civil triple.  Lexicographic order on the triple
coincides with the `getTime()` order used by the sources.  (The model omits
the ECMAScript plus-or-minus 100 million day clamp; no date handled by this
code base approaches it.) -/

def isLeap (y : ℤ) : Bool := (y % 4 = 0 ∧ y % 100 ≠ 0) ∨ y % 400 = 0

def daysInMonth (y m : ℤ) : ℤ :=
  if m = 2 then (if isLeap y then 29 else 28)
  else if m = 4 ∨ m = 6 ∨ m = 9 ∨ m = 11 then 30
  else 31

structure JsDate where
  year : ℤ
  month : ℤ
  day : ℤ
deriving DecidableEq

/-- Normalize a too-small day-of-month by borrowing from earlier months,
fuel-indexed so that the recursion is structural; `mkDate` supplies fuel
sufficient for full normalization (each borrow raises the day by at least
28).  Precondition (maintained by `mkDate`): `1 ≤ m ≤ 12`. -/
def normUp : ℕ → ℤ → ℤ → ℤ → JsDate
  | 0, y, m, d => ⟨y, m, d⟩
  | fuel + 1, y, m, d =>
    if d < 1 then
      let y2 := if m = 1 then y - 1 else y
      let m2 := if m = 1 then (12 : ℤ) else m - 1
      normUp fuel y2 m2 (d + daysInMonth y2 m2)
    else ⟨y, m, d⟩

/-- Normalize a too-large day-of-month by carrying into later months,
fuel-indexed so that the recursion is structural; `mkDate` supplies fuel
sufficient for full normalization (each carry lowers the day by at least
28).  Precondition (maintained by `mkDate`): `1 ≤ m ≤ 12` and `1 ≤ d`. -/
def normDown : ℕ → ℤ → ℤ → ℤ → JsDate
  | 0, y, m, d => ⟨y, m, d⟩
  | fuel + 1, y, m, d =>
    if daysInMonth y m < d then
      let y2 := if m = 12 then y + 1 else y
      let m2 := if m = 12 then (1 : ℤ) else m + 1
      normDown fuel y2 m2 (d - daysInMonth y m)
    else ⟨y, m, d⟩

/-- `new Date(y, monthIndex, day)` (local midnight): two-digit years shift to
the 1900s, the month index is normalized with floor division, and the day is
normalized against real month lengths. -/
def mkDate (y m0 d : ℤ) : JsDate :=
  let y1 := if 0 ≤ y ∧ y ≤ 99 then y + 1900 else y
  let y2 := y1 + Int.fdiv m0 12
  let m1 := Int.fmod m0 12 + 1
  if d < 1 then normUp (1 - d).toNat y2 m1 d else normDown d.toNat y2 m1 d

/-- A normalized civil date (every `mkDate` result satisfies this). -/
def JsDate.Valid (dt : JsDate) : Prop :=
  1 ≤ dt.month ∧ dt.month ≤ 12 ∧ 1 ≤ dt.day ∧ dt.day ≤ daysInMonth dt.year dt.month

instance (dt : JsDate) : Decidable dt.Valid := by
  unfold JsDate.Valid; infer_instance

/-- The JS comparison `a.getTime() <= b.getTime()` on normalized dates. -/
def jsDateLe (a b : JsDate) : Bool :=
  decide (a.year < b.year ∨ (a.year = b.year ∧ (a.month < b.month ∨
    (a.month = b.month ∧ a.day ≤ b.day))))

/-- The JS comparison `a < b` on dates. -/
def jsDateLt (a b : JsDate) : Bool :=
  decide (a.year < b.year ∨ (a.year = b.year ∧ (a.month < b.month ∨
    (a.month = b.month ∧ a.day < b.day))))

/-- Truncation toward zero, as ECMAScript ToIntegerOrInfinity applies to the
finite arguments of the `Date` constructor. -/
def ratTrunc (q : ℚ) : ℤ := q.num / (q.den : ℤ)

/-- `new Date(y, m, d)` for already-converted JS numbers: any NaN or infinite
component yields an Invalid Date (modelled as `none`). -/
def dateFromNums : JsNum → JsNum → JsNum → Option JsDate
  | .num a, .num b, .num c => some (mkDate (ratTrunc a) (ratTrunc b) (ratTrunc c))
  | _, _, _ => none

/-- JS `a - b` lifted to `JsNum` (used for the `m - 1` month argument). -/
def jsub (a b : JsNum) : JsNum := jadd a (jneg b)

/-! ## CONFIG.DATE_FORMATS (part_001)

Each catalog entry has an id, an anchored recognition pattern and a parse
function.  The regex patterns are realized as direct character-list matchers
equivalent to the anchored originals. -/

structure DateFormat where
  id : String
  pattern : String → Bool
  parse : String → Option JsDate

def alphaB (c : Char) : Bool :=
  (decide ('A' ≤ c) && decide (c ≤ 'Z')) || (decide ('a' ≤ c) && decide (c ≤ 'z'))

def toLowerCh (c : Char) : Char :=
  if decide ('A' ≤ c) && decide (c ≤ 'Z') then Char.ofNat (c.toNat + 32) else c

/-- A run of 1 to `hi` digits (at least `lo`). -/
def digitRun (lo hi : ℕ) (cs : List Char) : Bool :=
  decide (lo ≤ cs.length) && decide (cs.length ≤ hi) && cs.all Char.isDigit

/-- Anchored regex pattern matching 4digits dash 2digits dash 2digits. -/
def patYMD (s : String) : Bool :=
  match s.data with
  | [a, b, c, d, '-', e, f, '-', g, h] =>
    a.isDigit && b.isDigit && c.isDigit && d.isDigit &&
    e.isDigit && f.isDigit && g.isDigit && h.isDigit
  | _ => false

/-- Anchored slash pattern: 1-2 digits, slash, 1-2 digits, slash, 4 digits. -/
def patSlash (s : String) : Bool :=
  match splitChar '/' s.data with
  | [p1, p2, p3] => digitRun 1 2 p1 && digitRun 1 2 p2 && digitRun 4 4 p3
  | _ => false

/-- Anchored dash pattern: 1-2 digits, dash, 1-2 digits, dash, 4 digits. -/
def patDash (s : String) : Bool :=
  match splitChar '-' s.data with
  | [p1, p2, p3] => digitRun 1 2 p1 && digitRun 1 2 p2 && digitRun 4 4 p3
  | _ => false

/-- Anchored pattern: 1-2 digits, dash, 3 letters, dash, 4 digits. -/
def patDMMMY (s : String) : Bool :=
  match splitChar '-' s.data with
  | [p1, p2, p3] =>
    digitRun 1 2 p1 && (decide (p2.length = 3) && p2.all alphaB) && digitRun 4 4 p3
  | _ => false

/-- Tail of the month-name pattern after the three letters: one or more
spaces, 1-2 digits, optional comma, one or more spaces, exactly 4 digits. -/
def patMMMTail (cs : List Char) (anchored : Bool) : Bool :=
  let ws1 := cs.takeWhile jsWhitespaceB
  let r1 := cs.dropWhile jsWhitespaceB
  let ds := r1.takeWhile Char.isDigit
  let r2 := r1.dropWhile Char.isDigit
  let r3 := match r2 with
    | ',' :: t => t
    | t => t
  let ws2 := r3.takeWhile jsWhitespaceB
  let r4 := r3.dropWhile jsWhitespaceB
  let ys := r4.takeWhile Char.isDigit
  !ws1.isEmpty && digitRun 1 2 ds && !ws2.isEmpty &&
    (if anchored then digitRun 4 4 ys && (r4.dropWhile Char.isDigit).isEmpty
     else decide (4 ≤ ys.length))

/-- Anchored pattern: 3 letters, spaces, 1-2 digits, optional comma, spaces,
4 digits. -/
def patMMM (s : String) : Bool :=
  match s.data with
  | a :: b :: c :: rest => alphaB a && alphaB b && alphaB c && patMMMTail rest true
  | _ => false

/-- Anchored pattern: exactly 8 digits. -/
def pat8 (s : String) : Bool := digitRun 8 8 s.data

def getPart (l : List (List Char)) (i : ℕ) : Option String :=
  (l.get? i).map String.mk

/-- Split on a separator and convert each part with `Number` (JS
`s.split(sep).map(Number)` followed by destructuring into three slots). -/
def splitNums (sep : Char) (s : String) : JsNum × JsNum × JsNum :=
  let parts := splitChar sep s.data
  (jsNumberOpt (getPart parts 0), jsNumberOpt (getPart parts 1), jsNumberOpt (getPart parts 2))

def parseYMDdash (s : String) : Option JsDate :=
  let p := splitNums '-' s
  dateFromNums p.1 (jsub p.2.1 (.num 1)) p.2.2

def parseMDYslash (s : String) : Option JsDate :=
  let p := splitNums '/' s
  dateFromNums p.2.2 (jsub p.1 (.num 1)) p.2.1

def parseDMYslash (s : String) : Option JsDate :=
  let p := splitNums '/' s
  dateFromNums p.2.2 (jsub p.2.1 (.num 1)) p.1

def parseMDYdash (s : String) : Option JsDate :=
  let p := splitNums '-' s
  dateFromNums p.2.2 (jsub p.1 (.num 1)) p.2.1

def monthsTable (cs : List Char) : Option ℤ :=
  if cs = "jan".data then some 0 else if cs = "feb".data then some 1
  else if cs = "mar".data then some 2 else if cs = "apr".data then some 3
  else if cs = "may".data then some 4 else if cs = "jun".data then some 5
  else if cs = "jul".data then some 6 else if cs = "aug".data then some 7
  else if cs = "sep".data then some 8 else if cs = "oct".data then some 9
  else if cs = "nov".data then some 10 else if cs = "dec".data then some 11
  else none

/-- Parse for the digits-MMM-digits format: an out-of-table month name makes
the month `undefined` and the constructed date Invalid; fewer than three
dash-separated parts raises (caught by the caller) — both are `none`. -/
def parseDMMMY (s : String) : Option JsDate :=
  let parts := splitChar '-' s.data
  match parts.get? 0, parts.get? 1, parts.get? 2 with
  | some p0, some p1, some p2 =>
    match monthsTable (p1.map toLowerCh) with
    | some m =>
      match jsParseInt (String.mk p0), jsParseInt (String.mk p2) with
      | .num d, .num y => some (mkDate (ratTrunc y) m (ratTrunc d))
      | _, _ => none
    | none => none
  | _, _, _ => none

/-- First (unanchored) match of the month-name regex starting exactly at the
given character list, returning the three captured groups. -/
def matchMMMAt (cs : List Char) : Option (List Char × List Char × List Char) :=
  match cs with
  | a :: b :: c :: rest =>
    if alphaB a && alphaB b && alphaB c && patMMMTail rest false then
      let r1 := rest.dropWhile jsWhitespaceB
      let ds := r1.takeWhile Char.isDigit
      let r2 := r1.dropWhile Char.isDigit
      let r3 := match r2 with
        | ',' :: t => t
        | t => t
      let r4 := r3.dropWhile jsWhitespaceB
      some ([a, b, c], ds, r4.take 4)
    else none
  | _ => none

/-- Leftmost match of the unanchored month-name regex. -/
def findMMM : List Char → Option (List Char × List Char × List Char)
  | [] => none
  | c :: rest =>
    match matchMMMAt (c :: rest) with
    | some g => some g
    | none => findMMM rest

def parseMMM (s : String) : Option JsDate :=
  match findMMM s.data with
  | some (mon, ds, ys) =>
    match monthsTable (mon.map toLowerCh) with
    | some m =>
      match jsParseInt (String.mk ds), jsParseInt (String.mk ys) with
      | .num d, .num y => some (mkDate (ratTrunc y) m (ratTrunc d))
      | _, _ => none
    | none => none
  | none => none

def parseYYYYMMDD (s : String) : Option JsDate :=
  let y := jsParseInt (String.mk (s.data.take 4))
  let m := jsParseInt (String.mk ((s.data.drop 4).take 2))
  let d := jsParseInt (String.mk ((s.data.drop 6).take 2))
  dateFromNums y (jsub m (.num 1)) d

def CONFIG_DATE_FORMATS : List DateFormat :=
  [ ⟨"YYYY-MM-DD", patYMD, parseYMDdash⟩,
    ⟨"MM/DD/YYYY", patSlash, parseMDYslash⟩,
    ⟨"DD/MM/YYYY", patSlash, parseDMYslash⟩,
    ⟨"MM-DD-YYYY", patDash, parseMDYdash⟩,
    ⟨"DD-MMM-YYYY", patDMMMY, parseDMMMY⟩,
    ⟨"MMM DD, YYYY", patMMM, parseMMM⟩,
    ⟨"YYYYMMDD", pat8, parseYYYYMMDD⟩,
    ⟨"M/D/YYYY", patSlash, parseMDYslash⟩ ]

/-! ## PeriodUtils (period-utils.js) -/

namespace PeriodUtils

/-- Filter used by `detectDateFormat`: keep samples that are truthy and have
a nonempty trim. -/
def validSamplesOf (samples : List String) : List String :=
  samples.filter (fun s => s ≠ "" ∧ jsTrim s ≠ "")

/-- One sample counts toward a format's `validDates` when the trimmed sample
matches the pattern, parses to a real date, and the parsed year lies in
[1900, 2100]. -/
def validParseB (f : DateFormat) (s : String) : Bool :=
  f.pattern (jsTrim s) &&
    (match f.parse (jsTrim s) with
     | some dt => decide (1900 ≤ dt.year) && decide (dt.year ≤ 2100)
     | none => false)

def validCount (f : DateFormat) (vs : List String) : ℕ :=
  (vs.filter (fun s => validParseB f s)).length

/-- `formatScores[format.id].score = validDates / validSamples.length`. -/
def scoreOf (vs : List String) (f : DateFormat) : ℚ :=
  (validCount f vs : ℚ) / (vs.length : ℚ)

/-- Score looked up by format id (the `formatScores` map). -/
def scoreById (vs : List String) (fid : String) : ℚ :=
  match CONFIG_DATE_FORMATS.find? (fun f => f.id = fid) with
  | some f => scoreOf vs f
  | none => 0

/-- The strictly-improving fold that picks the best format (first format
with the maximal positive score), tracked by catalog id. -/
def bestFold (vs : List String) : Option String × ℚ :=
  CONFIG_DATE_FORMATS.foldl
    (fun acc f => if scoreOf vs f > acc.2 then (some f.id, scoreOf vs f) else acc)
    (none, 0)

/-- A sample whose first slash component is a day (13..31): forces the
day-first format in the ambiguity scan. -/
def forcesDD (s : String) : Bool :=
  match splitChar '/' s.data with
  | [p1, _, _] =>
    jGt (jsParseInt (String.mk p1)) 12 && jLe (jsParseInt (String.mk p1)) 31
  | _ => false

/-- A sample whose second slash component is a day (13..31): forces the
month-first format in the ambiguity scan. -/
def forcesMM (s : String) : Bool :=
  match splitChar '/' s.data with
  | [_, p2, _] =>
    jGt (jsParseInt (String.mk p2)) 12 && jLe (jsParseInt (String.mk p2)) 31
  | _ => false

/-- The disambiguation loop over `validSamples` (first disambiguating sample
wins; its first component is inspected before its second). -/
def scanDisamb : List String → Option String
  | [] => none
  | s :: rest =>
    if forcesDD s then some "DD/MM/YYYY"
    else if forcesMM s then some "MM/DD/YYYY"
    else scanDisamb rest

structure DetectResult where
  formatId : Option String
  confidence : ℚ

/-- The format id finally selected for a nonempty `validSamples` list:
the fold winner, possibly overridden by the slash-ambiguity rule. -/
def detectChoose (vs : List String) : Option String :=
  let bf := (bestFold vs).1
  match bf with
  | some fid =>
    if fid = "MM/DD/YYYY" ∨ fid = "DD/MM/YYYY" then
      if |scoreById vs "MM/DD/YYYY" - scoreById vs "DD/MM/YYYY"| < 1/10 then
        match scanDisamb vs with
        | some forced => some forced
        | none => some fid
      else some fid
    else some fid
  | none => none

/-- `PeriodUtils.detectDateFormat`. -/
def detectDateFormat (samples : List String) : DetectResult :=
  if samples.isEmpty then ⟨none, 0⟩
  else
    let vs := validSamplesOf samples
    if vs.isEmpty then ⟨none, 0⟩
    else ⟨detectChoose vs, (bestFold vs).2⟩

/-- `PeriodUtils.parseDate(dateStr, formatId)`; `none` models both `null`
and an Invalid Date.  (On the auto-detect fallback path the source returns
the parser's raw result; as proven by the positive best score, that result
is a valid date whenever the fallback fires, so the model agrees.) -/
def parseDate (dateStr : Option String) (formatId : Option String) : Option JsDate :=
  match dateStr, formatId with
  | some s, some fid =>
    if s = "" ∨ fid = "" then none
    else
      match CONFIG_DATE_FORMATS.find? (fun f => f.id = fid) with
      | some f => f.parse (jsTrim s)
      | none =>
        let det := detectDateFormat [s]
        match det.formatId with
        | some fid2 =>
          match CONFIG_DATE_FORMATS.find? (fun f => f.id = fid2) with
          | some f => f.parse (jsTrim s)
          | none => none
        | none => none
  | _, _ => none

/-- `PeriodUtils.getFiscalYear(date, fyEndMonth)`. -/
def getFiscalYear (dt : JsDate) (fyEndMonth : ℤ) : ℤ :=
  if dt.month > fyEndMonth then dt.year + 1 else dt.year

structure DateRange where
  start : JsDate
  endDate : JsDate
deriving DecidableEq

/-- `PeriodUtils.getFiscalYearRange(fiscalYear, fyEndMonth)`. -/
def getFiscalYearRange (fiscalYear fyEndMonth : ℤ) : DateRange :=
  if fyEndMonth = 12 then
    ⟨mkDate fiscalYear 0 1, mkDate fiscalYear 12 0⟩
  else
    ⟨mkDate (fiscalYear - 1) (fyEndMonth + 1 - 1) 1, mkDate fiscalYear fyEndMonth 0⟩

/-- `PeriodUtils.classifyPeriod(date, pyRange, cyRange)`: PY is tested
first; `none` models the `null` return. -/
def classifyPeriod (dt : JsDate) (pyRange cyRange : DateRange) : Option String :=
  if jsDateLe pyRange.start dt && jsDateLe dt pyRange.endDate then some "PY"
  else if jsDateLe cyRange.start dt && jsDateLe dt cyRange.endDate then some "CY"
  else none

end PeriodUtils

structure FYConfig where
  fiscalYear : ℤ
  start : JsDate
  endDate : JsDate
  label : String
  fullyCovered : Bool
deriving DecidableEq

/-- Modelled from the spec: `PeriodUtils.detectFiscalYears(minDate, maxDate,
fyEndMonth)` is invoked by the application (app.js and the app-extension
module) but its definition is not among the provided sources.  Per the spec:
"Fiscal-year discovery over a data date range: enumerate every fiscal year
touched by [min, max], each tagged fullyCovered if the observed data spans
the entire fiscal-year range, else partial." -/
def PeriodUtils.detectFiscalYears (minD maxD : JsDate) (fyEndMonth : ℤ) : List FYConfig :=
  let lo := PeriodUtils.getFiscalYear minD fyEndMonth
  let hi := PeriodUtils.getFiscalYear maxD fyEndMonth
  (List.range (hi - lo + 1).toNat).map (fun (i : ℕ) =>
    let fy := lo + (i : ℤ)
    let r := PeriodUtils.getFiscalYearRange fy fyEndMonth
    { fiscalYear := fy, start := r.start, endDate := r.endDate,
      label := "FY " ++ String.mk (intStr fy),
      fullyCovered := jsDateLe minD r.start && jsDateLe r.endDate maxD })

/-! ## CSVParser (csv-parser.js) -/

namespace CSVParser

/-- State-machine scan of `_extractCompleteRows` (one transition per source
branch; a CRLF pair is consumed as a single row break): returns the emitted
rows together with the residual state (row in progress, field buffer, quote
flag). -/
def extractLoop : List Char → List (List String) → List String → List Char → Bool →
    List (List String) × List String × List Char × Bool
  | [], rows, currentRow, currentField, inQuotes => (rows, currentRow, currentField, inQuotes)
  | '"' :: '"' :: rest, rows, currentRow, currentField, true =>
    extractLoop rest rows currentRow (currentField ++ ['"']) true
  | '"' :: rest, rows, currentRow, currentField, true =>
    extractLoop rest rows currentRow currentField false
  | c :: rest, rows, currentRow, currentField, true =>
    extractLoop rest rows currentRow (currentField ++ [c]) true
  | '"' :: rest, rows, currentRow, currentField, false =>
    extractLoop rest rows currentRow currentField true
  | ',' :: rest, rows, currentRow, currentField, false =>
    extractLoop rest rows (currentRow ++ [String.mk (trimChars currentField)]) [] false
  | '\r' :: '\n' :: rest, rows, currentRow, currentField, false =>
    let row := currentRow ++ [String.mk (trimChars currentField)]
    extractLoop rest (if row = [""] then rows else rows ++ [row]) [] [] false
  | '\r' :: rest, rows, currentRow, currentField, false =>
    let row := currentRow ++ [String.mk (trimChars currentField)]
    extractLoop rest (if row = [""] then rows else rows ++ [row]) [] [] false
  | '\n' :: rest, rows, currentRow, currentField, false =>
    let row := currentRow ++ [String.mk (trimChars currentField)]
    extractLoop rest (if row = [""] then rows else rows ++ [row]) [] [] false
  | c :: rest, rows, currentRow, currentField, false =>
    extractLoop rest rows currentRow (currentField ++ [c]) false

/-- Field re-serialization inside `_reconstructRow`. -/
def quoteField (f : String) : String :=
  if f.data.contains ',' ∨ f.data.contains '"' ∨ f.data.contains '\n' then
    String.mk ('"' :: (f.data.flatMap (fun c => if c = '"' then ['"', '"'] else [c])) ++ ['"'])
  else f

def lastCommaIdx (cs : List Char) : Option ℕ :=
  (List.range cs.length).reverse.find? (fun i => cs.get? i = some ',')

/-- `_reconstructRow(row, inQuotes)`. -/
def reconstructRow (row : List String) (inQuotes : Bool) : String :=
  let result := String.intercalate "," (row.map quoteField)
  if inQuotes then
    match lastCommaIdx result.data with
    | some idx => String.mk (result.data.take (idx + 1) ++ '"' :: result.data.drop (idx + 1))
    | none => String.mk ('"' :: result.data)
  else result

/-- `_extractCompleteRows(buffer)`: complete rows plus the reconstructed
unconsumed remainder. -/
def extractCompleteRows (buffer : String) : List (List String) × String :=
  let st := extractLoop buffer.data [] [] [] false
  let rows := st.1
  let currentRow := st.2.1
  let currentField := st.2.2.1
  let inQuotes := st.2.2.2
  if currentField ≠ [] ∨ currentRow ≠ [] then
    (rows, reconstructRow (currentRow ++ [String.mk currentField]) inQuotes)
  else (rows, "")

/-- The chunk loop of `parseFile`: prepend the carried buffer to each
incoming chunk, extract complete rows, carry the remainder. -/
def feedChunks : List String → String → List (List String) → List (List String) × String
  | [], buffer, acc => (acc, buffer)
  | ch :: rest, buffer, acc =>
    let r := extractCompleteRows (buffer ++ ch)
    feedChunks rest r.2 (acc ++ r.1)

/-- The complete ordered row sequence produced by `parseFile` for a given
chunking of the input (including the end-of-input flush of a nonempty buffer
with a trailing newline appended). -/
def parseChunks (chunks : List String) : List (List String) :=
  let r := feedChunks chunks "" []
  if r.2.length > 0 then r.1 ++ (extractCompleteRows (r.2 ++ "\n")).1 else r.1

/-- `CSVParser.parseNumber(value)`; `none` input models `null`/`undefined`.
Stage 1 of the stripping: trim, then unwrap one parenthesis pair. -/
def stripParens (v : String) : Bool × List Char :=
  let str := (jsTrim v).data
  if str.head? = some '(' ∧ str.getLast? = some ')' then (true, (str.drop 1).dropLast)
  else (false, str)

/-- Stage 2: remove all currency symbols and commas. -/
def stripSymbols (cs : List Char) : List Char :=
  cs.filter (fun c => ¬ (c = '$' ∨ c = '€' ∨ c = '£' ∨ c = '¥' ∨ c = ','))

/-- Stage 3: remove a single leading minus sign. -/
def stripMinus (cs : List Char) : Bool × List Char :=
  match cs with
  | '-' :: r => (true, r)
  | r => (false, r)

/-- The fully stripped residual string handed to `parseFloat`, paired with
the two sign flags. -/
def parseNumberResidual (v : String) : Bool × Bool × List Char :=
  let p := stripParens v
  let m := stripMinus (stripSymbols p.2)
  (p.1, m.1, m.2)

/-- `CSVParser.parseNumber`. -/
def parseNumber (value : Option String) : JsNum :=
  match value with
  | none => .nan
  | some v =>
    if v = "" then .nan
    else
      let r := parseNumberResidual v
      match jsParseFloatCore r.2.2 with
      | .nan => .nan
      | x => if r.1 ∨ r.2.1 then jneg x else x

end CSVParser

/-! ## BridgeCalculator (bridge-calculator.js)

Bridge arithmetic operates on finite JS numbers; it is modelled over exact
rationals.  The string mode switches are modelled as closed enumerations. -/

inductive Mode where
  | pvm : Mode
  | gm : Mode
deriving DecidableEq

inductive GmPriceDef where
  | marginPerUnit : GmPriceDef
  | salesPerUnit : GmPriceDef
deriving DecidableEq

inductive Classification where
  | isnew : Classification
  | discontinued : Classification
  | continuing : Classification
deriving DecidableEq

/-- A per-period accumulator as consumed by the bridge calculator. -/
structure QAcc where
  sales : ℚ
  quantity : ℚ
  cost : ℚ
  count : ℚ
deriving DecidableEq

structure BBucket where
  lodKey : String
  dimensions : List (String × String)
  py : QAcc
  cy : QAcc
deriving DecidableEq

structure PeriodView where
  value : ℚ
  price : ℚ
  volume : ℚ
  sales : ℚ
  cost : ℚ
  count : ℚ
deriving DecidableEq

structure BucketResult where
  lodKey : String
  dimensions : List (String × String)
  py : PeriodView
  cy : PeriodView
  totalChange : ℚ
  priceImpact : ℚ
  volumeImpact : ℚ
  mixImpact : ℚ
  costImpact : ℚ
  classification : Classification
  isNew : Bool
  isDiscontinued : Bool
deriving DecidableEq

namespace BridgeCalculator

/-- The value attributed to a period, by mode and GM price definition. -/
def valueOf (mode : Mode) (gmPriceDef : GmPriceDef) (a : QAcc) : ℚ :=
  match mode, gmPriceDef with
  | .gm, .marginPerUnit => a.sales - a.cost
  | .gm, .salesPerUnit => a.sales
  | .pvm, _ => a.sales

/-- `BridgeCalculator._calculateBucket(bucket, mode, gmPriceDef)`. -/
def calculateBucket (bucket : BBucket) (mode : Mode) (gmPriceDef : GmPriceDef) :
    BucketResult :=
  let py := bucket.py
  let cy := bucket.cy
  let isNew : Bool := decide (py.sales ≤ 0) || decide (py.quantity ≤ 0)
  let isDiscontinued : Bool := decide (cy.sales ≤ 0) || decide (cy.quantity ≤ 0)
  let pyValue := valueOf mode gmPriceDef py
  let cyValue := valueOf mode gmPriceDef cy
  let pyPrice := if py.quantity > 0 then pyValue / py.quantity else 0
  let cyPrice := if cy.quantity > 0 then cyValue / cy.quantity else 0
  let pyVolume := py.quantity
  let cyVolume := cy.quantity
  let totalChange := cyValue - pyValue
  let classification : Classification :=
    if isNew then .isnew else if isDiscontinued then .discontinued else .continuing
  let priceImpact : ℚ :=
    if isNew then 0 else if isDiscontinued then 0 else (cyPrice - pyPrice) * pyVolume
  let volumeImpact : ℚ :=
    if isNew then totalChange else if isDiscontinued then totalChange
    else (cyVolume - pyVolume) * pyPrice
  let mixImpact : ℚ :=
    if isNew then 0 else if isDiscontinued then 0
    else totalChange - priceImpact - volumeImpact
  let costImpact : ℚ :=
    if mode = .gm ∧ gmPriceDef = .salesPerUnit then -(cy.cost - py.cost) else 0
  { lodKey := bucket.lodKey, dimensions := bucket.dimensions,
    py := ⟨pyValue, pyPrice, pyVolume, py.sales, py.cost, py.count⟩,
    cy := ⟨cyValue, cyPrice, cyVolume, cy.sales, cy.cost, cy.count⟩,
    totalChange := totalChange, priceImpact := priceImpact,
    volumeImpact := volumeImpact, mixImpact := mixImpact, costImpact := costImpact,
    classification := classification, isNew := isNew, isDiscontinued := isDiscontinued }

structure SummaryTotals where
  pyValue : ℚ
  pySales : ℚ
  pyQuantity : ℚ
  pyCost : ℚ
  pyCount : ℚ
  cyValue : ℚ
  cySales : ℚ
  cyQuantity : ℚ
  cyCost : ℚ
  cyCount : ℚ
  totalChange : ℚ
  priceImpact : ℚ
  volumeImpact : ℚ
  mixImpact : ℚ
  costImpact : ℚ
  countTotal : ℕ
  countNew : ℕ
  countDiscontinued : ℕ
  countContinuing : ℕ
deriving DecidableEq

structure Summary extends SummaryTotals where
  priceImpactPct : ℚ
  volumeImpactPct : ℚ
  mixImpactPct : ℚ
  costImpactPct : ℚ
  changePct : ℚ
deriving DecidableEq

def sumStep (s : SummaryTotals) (r : BucketResult) : SummaryTotals :=
  { pyValue := s.pyValue + r.py.value, pySales := s.pySales + r.py.sales,
    pyQuantity := s.pyQuantity + r.py.volume, pyCost := s.pyCost + r.py.cost,
    pyCount := s.pyCount + r.py.count,
    cyValue := s.cyValue + r.cy.value, cySales := s.cySales + r.cy.sales,
    cyQuantity := s.cyQuantity + r.cy.volume, cyCost := s.cyCost + r.cy.cost,
    cyCount := s.cyCount + r.cy.count,
    totalChange := s.totalChange + r.totalChange,
    priceImpact := s.priceImpact + r.priceImpact,
    volumeImpact := s.volumeImpact + r.volumeImpact,
    mixImpact := s.mixImpact + r.mixImpact,
    costImpact := s.costImpact + r.costImpact,
    countTotal := s.countTotal,
    countNew := s.countNew + (if r.classification = .isnew then 1 else 0),
    countDiscontinued := s.countDiscontinued + (if r.classification = .discontinued then 1 else 0),
    countContinuing := s.countContinuing + (if r.classification = .continuing then 1 else 0) }

def zeroTotals (n : ℕ) : SummaryTotals :=
  ⟨0, 0, 0, 0, 0, 0, 0, 0, 0, 0, 0, 0, 0, 0, 0, n, 0, 0, 0⟩

/-- `BridgeCalculator._calculateSummary(detailResults, mode)`. -/
def calculateSummary (detailResults : List BucketResult) : Summary :=
  let t := detailResults.foldl sumStep (zeroTotals detailResults.length)
  { toSummaryTotals := t,
    priceImpactPct := if t.totalChange ≠ 0 then t.priceImpact / |t.totalChange| * 100 else 0,
    volumeImpactPct := if t.totalChange ≠ 0 then t.volumeImpact / |t.totalChange| * 100 else 0,
    mixImpactPct := if t.totalChange ≠ 0 then t.mixImpact / |t.totalChange| * 100 else 0,
    costImpactPct := if t.totalChange ≠ 0 then t.costImpact / |t.totalChange| * 100 else 0,
    changePct := if t.pyValue ≠ 0 then (t.cyValue - t.pyValue) / |t.pyValue| * 100 else 0 }

/-- The two-period branch of `BridgeCalculator.calculate`. -/
def calculateTwoPeriod (aggregatedData : List BBucket) (mode : Mode)
    (gmPriceDef : GmPriceDef) : List BucketResult × Summary :=
  let detail := aggregatedData.map (fun b => calculateBucket b mode gmPriceDef)
  (detail, calculateSummary detail)

/-! ### Multi-year bridges -/

/-- A bucket in multi-year shape: `years` is the per-fiscal-year accumulator
object (a JS object keyed by year number). -/
structure MYBucket where
  lodKey : String
  dimensions : List (String × String)
  years : List (ℤ × QAcc)
deriving DecidableEq

structure YearView where
  sales : ℚ
  volume : ℚ
  price : ℚ
  cost : ℚ
  count : ℚ
  value : ℚ
deriving DecidableEq

structure BridgeEntry where
  totalChange : ℚ
  priceImpact : ℚ
  volumeImpact : ℚ
  mixImpact : ℚ
  costImpact : ℚ
  isNew : Bool
  isDiscontinued : Bool
deriving DecidableEq

/-- JS object property lookup on an insertion-ordered association list. -/
def objGet {α : Type} [DecidableEq α] {β : Type} (l : List (α × β)) (k : α) : Option β :=
  (l.find? (fun p => p.1 = k)).map Prod.snd

/-- JS object property assignment: overwrite in place, or append. -/
def objSet {α : Type} [DecidableEq α] {β : Type} (l : List (α × β)) (k : α) (v : β) :
    List (α × β) :=
  if (l.find? (fun p => p.1 = k)).isSome then
    l.map (fun p => if p.1 = k then (k, v) else p)
  else l ++ [(k, v)]

/-- The per-year metric record built inside `_calculateMultiYearBucket`. -/
def yearView (mode : Mode) (gmPriceDef : GmPriceDef) (yd : QAcc) : YearView :=
  let value := if mode = .gm ∧ gmPriceDef = .marginPerUnit then yd.sales - yd.cost else yd.sales
  let price := if yd.quantity > 0 then value / yd.quantity else 0
  ⟨yd.sales, yd.quantity, price, yd.cost, yd.count, value⟩

/-- The year-metric loop of `_calculateMultiYearBucket` (`result.years`). -/
def calcYears (bucket : MYBucket) (mode : Mode) (gmPriceDef : GmPriceDef)
    (fiscalYears : List FYConfig) : List (ℤ × YearView) :=
  fiscalYears.foldl
    (fun acc fyc =>
      match objGet bucket.years fyc.fiscalYear with
      | none => acc
      | some yd => objSet acc fyc.fiscalYear (yearView mode gmPriceDef yd))
    []

/-- JS template-literal bridge key: String(prevFY), a dash, String(nextFY). -/
def bridgeKey (a b : ℤ) : List Char := intStr a ++ '-' :: intStr b

/-- One year-over-year bridge of `_calculateMultiYearBucket`. -/
def mkBridgeEntry (py cy : YearView) (mode : Mode) (gmPriceDef : GmPriceDef) :
    BridgeEntry :=
  let isNew : Bool := decide (py.sales ≤ 0) || decide (py.volume ≤ 0)
  let isDiscontinued : Bool := decide (cy.sales ≤ 0) || decide (cy.volume ≤ 0)
  let totalChange := cy.value - py.value
  let priceImpact : ℚ :=
    if isNew then 0 else if isDiscontinued then 0 else (cy.price - py.price) * py.volume
  let volumeImpact : ℚ :=
    if isNew then totalChange else if isDiscontinued then totalChange
    else (cy.volume - py.volume) * py.price
  let mixImpact : ℚ :=
    if isNew then 0 else if isDiscontinued then 0
    else totalChange - priceImpact - volumeImpact
  let costImpact : ℚ :=
    if mode = .gm ∧ gmPriceDef = .salesPerUnit then -(cy.cost - py.cost) else 0
  ⟨totalChange, priceImpact, volumeImpact, mixImpact, costImpact, isNew, isDiscontinued⟩

/-- The consecutive-pair bridge loop of `_calculateMultiYearBucket`
(`result.bridges`), iterating `i` from 0 to `fiscalYears.length - 2`. -/
def calcBridgesGo (years : List (ℤ × YearView)) (mode : Mode) (gmPriceDef : GmPriceDef)
    (acc : List (List Char × BridgeEntry)) :
    List (FYConfig × FYConfig) → List (List Char × BridgeEntry)
  | [] => acc
  | (a, b) :: ps =>
    let acc2 :=
      match objGet years a.fiscalYear, objGet years b.fiscalYear with
      | some py, some cy =>
        objSet acc (bridgeKey a.fiscalYear b.fiscalYear) (mkBridgeEntry py cy mode gmPriceDef)
      | _, _ => acc
    calcBridgesGo years mode gmPriceDef acc2 ps

structure MYResult where
  lodKey : String
  dimensions : List (String × String)
  years : List (ℤ × YearView)
  bridges : List (List Char × BridgeEntry)
deriving DecidableEq

/-- `BridgeCalculator._calculateMultiYearBucket(bucket, mode, gmPriceDef,
fiscalYears)`. -/
def calculateMultiYearBucket (bucket : MYBucket) (mode : Mode)
    (gmPriceDef : GmPriceDef) (fiscalYears : List FYConfig) : MYResult :=
  let years := calcYears bucket mode gmPriceDef fiscalYears
  let bridges := calcBridgesGo years mode gmPriceDef [] (fiscalYears.zip fiscalYears.tail)
  ⟨bucket.lodKey, bucket.dimensions, years, bridges⟩

end BridgeCalculator

/-! ## Aggregator (the unnamed aggregator module)

A record row is a partial map from column name to raw string value (JS
property access on the row object).  The negatives ledger is a JS object:
keyed "py"/"cy" in two-period mode, keyed by the fiscal-year string in
multi-year mode; it is modelled uniformly as an insertion-ordered
association list. -/

structure NegAcc where
  count : ℕ
  sales : JsNum
  quantity : JsNum
  cost : JsNum
deriving DecidableEq

/-- A per-period accumulator during aggregation (JS numbers). -/
structure JAcc where
  sales : JsNum
  quantity : JsNum
  cost : JsNum
  count : ℕ
deriving DecidableEq

def JAcc.zero : JAcc := ⟨.num 0, .num 0, .num 0, 0⟩

inductive BucketPeriods where
  | twoP : JAcc → JAcc → BucketPeriods
  | multi : List (ℤ × JAcc) → BucketPeriods
deriving DecidableEq

structure AggBucket where
  dimensions : List (String × String)
  periods : BucketPeriods
deriving DecidableEq

structure YearInfo where
  fy : ℤ
  start : JsDate
  endDate : JsDate
  label : String
deriving DecidableEq

structure AggConfig where
  dimensions : List String
  dateColumn : String
  salesColumn : String
  quantityColumn : String
  costColumn : Option String
  dateFormat : Option String
  pyRange : PeriodUtils.DateRange
  cyRange : PeriodUtils.DateRange
  fiscalYears : List FYConfig

structure AggStats where
  totalRows : ℕ
  includedRows : ℕ
  excludedRows : ℕ
  pyRows : ℕ
  cyRows : ℕ
  yearRows : List (ℤ × ℕ)
  outsidePeriodRows : ℕ
  parseErrors : ℕ
  uniqueLODKeys : ℕ
deriving DecidableEq

structure AggCtx where
  config : AggConfig
  isMultiYear : Bool
  yearLookup : List YearInfo
  data : List (String × AggBucket)
  negatives : List (String × NegAcc)
  stats : AggStats
  dateMin : Option JsDate
  dateMax : Option JsDate

namespace Aggregator

def NegAcc.zero : NegAcc := ⟨0, .num 0, .num 0, .num 0⟩

/-- `Aggregator.createContext(config)`. -/
def createContext (config : AggConfig) : AggCtx :=
  let isMultiYear := ¬ config.fiscalYears.isEmpty
  { config := config,
    isMultiYear := isMultiYear,
    yearLookup :=
      if isMultiYear then
        config.fiscalYears.map (fun fy => ⟨fy.fiscalYear, fy.start, fy.endDate, fy.label⟩)
      else [],
    data := [],
    negatives := if isMultiYear then [] else [("py", NegAcc.zero), ("cy", NegAcc.zero)],
    stats := ⟨0, 0, 0, 0, 0, [], 0, 0, 0⟩,
    dateMin := none,
    dateMax := none }

/-- Period classification step of `processRow`: two-period mode delegates to
`classifyPeriod`; multi-year mode takes the first fiscal-year window
containing the date (the multi-year tag is the JS string of the year). -/
def periodOf (ctx : AggCtx) (date : JsDate) : Option String × Option ℤ :=
  if ctx.isMultiYear then
    match ctx.yearLookup.find? (fun yi => jsDateLe yi.start date && jsDateLe date yi.endDate) with
    | some yi => (some (String.mk (intStr yi.fy)), some yi.fy)
    | none => (none, none)
  else (PeriodUtils.classifyPeriod date ctx.config.pyRange ctx.config.cyRange, none)

/-- `Aggregator._buildLODKey(row, dimensions)`. -/
def buildLODKey (row : String → Option String) (dimensions : List String) : String :=
  if dimensions.isEmpty then "__TOTAL__"
  else
    String.intercalate "|||"
      (dimensions.map (fun dim =>
        match row dim with
        | some v => if v ≠ "" ∧ jsTrim v ≠ "" then jsTrim v else "Unknown"
        | none => "Unknown"))

/-- `Aggregator._extractDimensions(row, dimensions)`. -/
def extractDimensions (row : String → Option String) (dimensions : List String) :
    List (String × String) :=
  dimensions.map (fun dim =>
    (dim,
      match row dim with
      | some v => if v ≠ "" ∧ jsTrim v ≠ "" then jsTrim v else "Unknown"
      | none => "Unknown"))

/-- The negatives-ledger bump for one excluded row (`negBucket.count++` and
the three guarded sums). -/
def negBump (n : NegAcc) (sales quantity cost : JsNum) : NegAcc :=
  { count := n.count + 1,
    sales := jadd n.sales (if sales.isNaN then .num 0 else sales),
    quantity := jadd n.quantity (if quantity.isNaN then .num 0 else quantity),
    cost := jadd n.cost (if cost.isNaN then .num 0 else cost) }

/-- Ledger update: create the entry on first sight (multi-year), then bump. -/
def negUpdate (entries : List (String × NegAcc)) (key : String)
    (sales quantity cost : JsNum) : List (String × NegAcc) :=
  match BridgeCalculator.objGet entries key with
  | some n => BridgeCalculator.objSet entries key (negBump n sales quantity cost)
  | none => entries ++ [(key, negBump NegAcc.zero sales quantity cost)]

/-- Per-period accumulation into a bucket (`periodBucket.sales += sales`,
etc.; the cost add is guarded against NaN). -/
def accBump (a : JAcc) (sales quantity cost : JsNum) : JAcc :=
  { sales := jadd a.sales sales,
    quantity := jadd a.quantity quantity,
    cost := jadd a.cost (if cost.isNaN then .num 0 else cost),
    count := a.count + 1 }

def bucketBump (b : AggBucket) (isMultiYear : Bool) (per : String) (fy : Option ℤ)
    (sales quantity cost : JsNum) : AggBucket :=
  { b with periods :=
      match b.periods, isMultiYear, fy with
      | .multi years, true, some y =>
        .multi (years.map (fun p => if p.1 = y then (y, accBump p.2 sales quantity cost) else p))
      | .twoP py cy, false, _ =>
        if per = "PY" then .twoP (accBump py sales quantity cost) cy
        else .twoP py (accBump cy sales quantity cost)
      | ps, _, _ => ps }

def yearRowsBump (l : List (ℤ × ℕ)) (fy : ℤ) : List (ℤ × ℕ) :=
  match BridgeCalculator.objGet l fy with
  | some n => BridgeCalculator.objSet l fy (n + 1)
  | none => l ++ [(fy, 1)]

/-- The date-range update of `processRow` (`if (!min || date < min) ...`). -/
def dateMinUpd (cur : Option JsDate) (date : JsDate) : Option JsDate :=
  match cur with
  | none => some date
  | some m => if jsDateLt date m then some date else some m

def dateMaxUpd (cur : Option JsDate) (date : JsDate) : Option JsDate :=
  match cur with
  | none => some date
  | some m => if jsDateLt m date then some date else some m

/-- `Aggregator.processRow(ctx, row)`: returns the JS boolean result and the
updated context.  (The source updates the date range in place before
classifying the period; the classification reads none of the date-range
state, so it is computed here against the incoming context.) -/
def processRow (ctx : AggCtx) (row : String → Option String) : Bool × AggCtx :=
  let stats0 := { ctx.stats with totalRows := ctx.stats.totalRows + 1 }
  let config := ctx.config
  match PeriodUtils.parseDate (row config.dateColumn) config.dateFormat with
  | none =>
    (false, { ctx with stats :=
      { stats0 with parseErrors := stats0.parseErrors + 1,
                    excludedRows := stats0.excludedRows + 1 } })
  | some date =>
    let dateMin := dateMinUpd ctx.dateMin date
    let dateMax := dateMaxUpd ctx.dateMax date
    match periodOf ctx date with
    | (none, _) =>
      (false, { ctx with dateMin := dateMin, dateMax := dateMax, stats :=
        { stats0 with outsidePeriodRows := stats0.outsidePeriodRows + 1,
                      excludedRows := stats0.excludedRows + 1 } })
    | (some per, fiscalYear) =>
      let sales := CSVParser.parseNumber (row config.salesColumn)
      let quantity := CSVParser.parseNumber (row config.quantityColumn)
      let cost :=
        match config.costColumn with
        | some cc => CSVParser.parseNumber (row cc)
        | none => .num 0
      if sales.isNaN ∨ quantity.isNaN then
        (false, { ctx with dateMin := dateMin, dateMax := dateMax, stats :=
          { stats0 with parseErrors := stats0.parseErrors + 1,
                        excludedRows := stats0.excludedRows + 1 } })
      else if jleZero sales ∨ jleZero quantity then
        let key := if ctx.isMultiYear then per else (if per = "PY" then "py" else "cy")
        (false, { ctx with
                    dateMin := dateMin, dateMax := dateMax,
                    negatives := negUpdate ctx.negatives key sales quantity cost,
                    stats := { stats0 with excludedRows := stats0.excludedRows + 1 } })
      else
        let lodKey := buildLODKey row config.dimensions
        let dataInit :=
          if (BridgeCalculator.objGet ctx.data lodKey).isSome then ctx.data
          else
            ctx.data ++ [(lodKey,
              { dimensions := extractDimensions row config.dimensions,
                periods :=
                  if ctx.isMultiYear then
                    .multi (ctx.yearLookup.map (fun yi => (yi.fy, JAcc.zero)))
                  else .twoP JAcc.zero JAcc.zero })]
        let uniqueInc : ℕ := if (BridgeCalculator.objGet ctx.data lodKey).isSome then 0 else 1
        let data2 := dataInit.map (fun p =>
          if p.1 = lodKey then
            (p.1, bucketBump p.2 ctx.isMultiYear per fiscalYear sales quantity cost)
          else p)
        let stats2 :=
          { stats0 with
            includedRows := stats0.includedRows + 1,
            uniqueLODKeys := stats0.uniqueLODKeys + uniqueInc,
            pyRows := if ¬ ctx.isMultiYear ∧ per = "PY" then stats0.pyRows + 1 else stats0.pyRows,
            cyRows := if ¬ ctx.isMultiYear ∧ per ≠ "PY" then stats0.cyRows + 1 else stats0.cyRows,
            yearRows :=
              match ctx.isMultiYear, fiscalYear with
              | true, some fy => yearRowsBump stats0.yearRows fy
              | _, _ => stats0.yearRows }
        (true, { ctx with dateMin := dateMin, dateMax := dateMax,
                          data := data2, stats := stats2 })

/-- Fold a stream of rows through `processRow`. -/
def processAll (rows : List (String → Option String)) (ctx : AggCtx) : AggCtx :=
  rows.foldl (fun c r => (processRow c r).2) ctx

/-- Total count across the negatives ledger (all period tags). -/
def negTotalCount (entries : List (String × NegAcc)) : ℕ :=
  (entries.map (fun p => p.2.count)).sum

end Aggregator

/-! ## Numeric-literal syntax (spec side, for claim C8)

The claim speaks of the stripped residual being "a numeric literal"; this
full-string syntax predicate (optionally signed decimal literal or Infinity)
and its prefix-existence companion are stated independently of
`jsParseFloat` so that the two can be compared. -/

def numericLiteralBody (cs : List Char) : Bool :=
  decide (cs = infinityChars) || (decFullVal cs).isSome

/-- Full-string numeric literal: optional sign, then a decimal literal
(digits, optional point and fraction, optional exponent) or Infinity. -/
def numericLiteralChars (cs : List Char) : Bool :=
  match cs with
  | '+' :: r => numericLiteralBody r
  | '-' :: r => numericLiteralBody r
  | r => numericLiteralBody r

/-- After skipping leading whitespace, some nonempty prefix is a numeric
literal. -/
def numericStartB (cs : List Char) : Bool :=
  let r := cs.dropWhile jsWhitespaceB
  (List.range (r.length + 1)).any (fun k => decide (0 < k) && numericLiteralChars (r.take k))

/-! # Theorems -/

/-! ## Shared lemmas: bridge reconciliation -/

theorem calculateBucket_pvm_sum (bucket : BBucket) (mode : Mode) (gmPriceDef : GmPriceDef) :
    (BridgeCalculator.calculateBucket bucket mode gmPriceDef).priceImpact +
    (BridgeCalculator.calculateBucket bucket mode gmPriceDef).volumeImpact +
    (BridgeCalculator.calculateBucket bucket mode gmPriceDef).mixImpact =
    (BridgeCalculator.calculateBucket bucket mode gmPriceDef).totalChange := by
  simp only [BridgeCalculator.calculateBucket, BridgeCalculator.valueOf]
  split_ifs <;> ring

theorem sumStep_pvm (s : BridgeCalculator.SummaryTotals) (r : BucketResult)
    (hs : s.priceImpact + s.volumeImpact + s.mixImpact = s.totalChange)
    (hr : r.priceImpact + r.volumeImpact + r.mixImpact = r.totalChange) :
    (BridgeCalculator.sumStep s r).priceImpact + (BridgeCalculator.sumStep s r).volumeImpact +
      (BridgeCalculator.sumStep s r).mixImpact = (BridgeCalculator.sumStep s r).totalChange := by
  simp only [BridgeCalculator.sumStep]
  linarith

theorem foldl_sumStep_pvm (l : List BucketResult)
    (hl : ∀ r ∈ l, r.priceImpact + r.volumeImpact + r.mixImpact = r.totalChange) :
    ∀ s : BridgeCalculator.SummaryTotals,
      s.priceImpact + s.volumeImpact + s.mixImpact = s.totalChange →
      (l.foldl BridgeCalculator.sumStep s).priceImpact +
        (l.foldl BridgeCalculator.sumStep s).volumeImpact +
        (l.foldl BridgeCalculator.sumStep s).mixImpact =
        (l.foldl BridgeCalculator.sumStep s).totalChange := by
  induction l with
  | nil => intro s hs; simpa using hs
  | cons r rest ih =>
    intro s hs
    simp only [List.foldl_cons]
    exact ih (fun x hx => hl x (List.mem_cons_of_mem _ hx))
      _ (sumStep_pvm s r hs (hl r (List.mem_cons_self _ _)))

/-- Claim C1, counterexample: in gm mode with the sales-per-unit price
definition, a continuing bucket with quantity 1 in both periods, equal sales
and differing costs has priceImpact + volumeImpact + mixImpact + costImpact
different from totalChange (the sum including costImpact misses totalChange
by exactly the cost change). -/
theorem c1_counterexample :
    (BridgeCalculator.calculateBucket
        ⟨"k", [], ⟨10, 1, 2, 1⟩, ⟨10, 1, 5, 1⟩⟩ .gm .salesPerUnit).classification =
      .continuing ∧
    (0 : ℚ) < (⟨10, 1, 2, 1⟩ : QAcc).quantity ∧ (0 : ℚ) < (⟨10, 1, 5, 1⟩ : QAcc).quantity ∧
    ¬ ((BridgeCalculator.calculateBucket
        ⟨"k", [], ⟨10, 1, 2, 1⟩, ⟨10, 1, 5, 1⟩⟩ .gm .salesPerUnit).priceImpact +
      (BridgeCalculator.calculateBucket
        ⟨"k", [], ⟨10, 1, 2, 1⟩, ⟨10, 1, 5, 1⟩⟩ .gm .salesPerUnit).volumeImpact +
      (BridgeCalculator.calculateBucket
        ⟨"k", [], ⟨10, 1, 2, 1⟩, ⟨10, 1, 5, 1⟩⟩ .gm .salesPerUnit).mixImpact +
      (BridgeCalculator.calculateBucket
        ⟨"k", [], ⟨10, 1, 2, 1⟩, ⟨10, 1, 5, 1⟩⟩ .gm .salesPerUnit).costImpact =
      (BridgeCalculator.calculateBucket
        ⟨"k", [], ⟨10, 1, 2, 1⟩, ⟨10, 1, 5, 1⟩⟩ .gm .salesPerUnit).totalChange) := by
  refine ⟨rfl, by norm_num, by norm_num, ?_⟩
  simp only [BridgeCalculator.calculateBucket, BridgeCalculator.valueOf]
  norm_num

/-- Claim C1 (amended): for every bucket (in particular every continuing
bucket) and for every two-period bridge summary, priceImpact + volumeImpact
+ mixImpact equals totalChange exactly, in every mode; costImpact is not
part of this reconciliation — in gm mode with the sales-per-unit price
definition the sum including costImpact instead equals the gross-margin
change (cy.sales - cy.cost) - (py.sales - py.cost), i.e. totalChange plus
costImpact. -/
theorem c1_reconciliation :
    (∀ (bucket : BBucket) (mode : Mode) (gmPriceDef : GmPriceDef),
      (BridgeCalculator.calculateBucket bucket mode gmPriceDef).priceImpact +
        (BridgeCalculator.calculateBucket bucket mode gmPriceDef).volumeImpact +
        (BridgeCalculator.calculateBucket bucket mode gmPriceDef).mixImpact =
        (BridgeCalculator.calculateBucket bucket mode gmPriceDef).totalChange) ∧
    (∀ (aggregatedData : List BBucket) (mode : Mode) (gmPriceDef : GmPriceDef),
      ((BridgeCalculator.calculateTwoPeriod aggregatedData mode gmPriceDef).2).priceImpact +
        ((BridgeCalculator.calculateTwoPeriod aggregatedData mode gmPriceDef).2).volumeImpact +
        ((BridgeCalculator.calculateTwoPeriod aggregatedData mode gmPriceDef).2).mixImpact =
        ((BridgeCalculator.calculateTwoPeriod aggregatedData mode gmPriceDef).2).totalChange) ∧
    (∀ bucket : BBucket,
      (BridgeCalculator.calculateBucket bucket .gm .salesPerUnit).priceImpact +
        (BridgeCalculator.calculateBucket bucket .gm .salesPerUnit).volumeImpact +
        (BridgeCalculator.calculateBucket bucket .gm .salesPerUnit).mixImpact +
        (BridgeCalculator.calculateBucket bucket .gm .salesPerUnit).costImpact =
        (bucket.cy.sales - bucket.cy.cost) - (bucket.py.sales - bucket.py.cost)) := by
  refine ⟨calculateBucket_pvm_sum, ?_, ?_⟩
  · intro aggregatedData mode gmPriceDef
    have h := foldl_sumStep_pvm
      (aggregatedData.map (fun b => BridgeCalculator.calculateBucket b mode gmPriceDef))
      (by
        intro r hr
        rcases List.mem_map.mp hr with ⟨b, _, rfl⟩
        exact calculateBucket_pvm_sum b mode gmPriceDef)
      (BridgeCalculator.zeroTotals
        (aggregatedData.map (fun b => BridgeCalculator.calculateBucket b mode gmPriceDef)).length)
      (by simp [BridgeCalculator.zeroTotals])
    simpa [BridgeCalculator.calculateTwoPeriod, BridgeCalculator.calculateSummary] using h
  · intro bucket
    have h := calculateBucket_pvm_sum bucket .gm .salesPerUnit
    simp only [BridgeCalculator.calculateBucket, BridgeCalculator.valueOf] at h ⊢
    simp only [eq_self_iff_true, and_self, if_true] at h ⊢
    split_ifs at h ⊢ <;> ring

/-- Claim C2: whenever py.quantity is nonpositive or py.sales is nonpositive
(the bucket classifies as new), the bucket result has priceImpact 0,
mixImpact 0 and volumeImpact equal to totalChange, regardless of the cy
accumulator; symmetrically, whenever cy.quantity or cy.sales is nonpositive
(classification discontinued, unless the bucket is simultaneously new, in
which case the new branch fires first with the same three equations), the
same three equations hold regardless of the py accumulator. -/
theorem c2_new_discontinued (py cy : QAcc) (mode : Mode) (gmPriceDef : GmPriceDef)
    (lodKey : String) (dims : List (String × String)) :
    ((py.sales ≤ 0 ∨ py.quantity ≤ 0) →
      (BridgeCalculator.calculateBucket ⟨lodKey, dims, py, cy⟩ mode gmPriceDef).priceImpact = 0 ∧
      (BridgeCalculator.calculateBucket ⟨lodKey, dims, py, cy⟩ mode gmPriceDef).mixImpact = 0 ∧
      (BridgeCalculator.calculateBucket ⟨lodKey, dims, py, cy⟩ mode gmPriceDef).volumeImpact =
        (BridgeCalculator.calculateBucket ⟨lodKey, dims, py, cy⟩ mode gmPriceDef).totalChange) ∧
    ((cy.sales ≤ 0 ∨ cy.quantity ≤ 0) →
      (BridgeCalculator.calculateBucket ⟨lodKey, dims, py, cy⟩ mode gmPriceDef).priceImpact = 0 ∧
      (BridgeCalculator.calculateBucket ⟨lodKey, dims, py, cy⟩ mode gmPriceDef).mixImpact = 0 ∧
      (BridgeCalculator.calculateBucket ⟨lodKey, dims, py, cy⟩ mode gmPriceDef).volumeImpact =
        (BridgeCalculator.calculateBucket ⟨lodKey, dims, py, cy⟩ mode gmPriceDef).totalChange) := by
  constructor
  · intro hpy
    simp only [BridgeCalculator.calculateBucket, BridgeCalculator.valueOf]
    have : (decide (py.sales ≤ 0) || decide (py.quantity ≤ 0)) = true := by
      rcases hpy with h | h <;> simp [h]
    simp [this]
  · intro hcy
    simp only [BridgeCalculator.calculateBucket, BridgeCalculator.valueOf]
    have : (decide (cy.sales ≤ 0) || decide (cy.quantity ≤ 0)) = true := by
      rcases hcy with h | h <;> simp [h]
    by_cases hn : (decide (py.sales ≤ 0) || decide (py.quantity ≤ 0)) = true <;>
      simp [this, hn]

/-- Witness for C2 at concrete inputs: a bucket with zero py sales (new) and
a bucket with zero cy quantity (discontinued). -/
theorem c2_new_discontinued_witness :
    ((0 : ℚ) ≤ 0 ∨ (5 : ℚ) ≤ 0) ∧
    ((BridgeCalculator.calculateBucket ⟨"k", [], ⟨0, 5, 0, 0⟩, ⟨7, 3, 1, 2⟩⟩ .pvm
        .marginPerUnit).priceImpact = 0 ∧
      (BridgeCalculator.calculateBucket ⟨"k", [], ⟨0, 5, 0, 0⟩, ⟨7, 3, 1, 2⟩⟩ .pvm
        .marginPerUnit).mixImpact = 0 ∧
      (BridgeCalculator.calculateBucket ⟨"k", [], ⟨0, 5, 0, 0⟩, ⟨7, 3, 1, 2⟩⟩ .pvm
        .marginPerUnit).volumeImpact =
        (BridgeCalculator.calculateBucket ⟨"k", [], ⟨0, 5, 0, 0⟩, ⟨7, 3, 1, 2⟩⟩ .pvm
          .marginPerUnit).totalChange) ∧
    ((BridgeCalculator.calculateBucket ⟨"k", [], ⟨7, 3, 1, 2⟩, ⟨6, 0, 1, 2⟩⟩ .pvm
        .marginPerUnit).priceImpact = 0 ∧
      (BridgeCalculator.calculateBucket ⟨"k", [], ⟨7, 3, 1, 2⟩, ⟨6, 0, 1, 2⟩⟩ .pvm
        .marginPerUnit).mixImpact = 0 ∧
      (BridgeCalculator.calculateBucket ⟨"k", [], ⟨7, 3, 1, 2⟩, ⟨6, 0, 1, 2⟩⟩ .pvm
        .marginPerUnit).volumeImpact =
        (BridgeCalculator.calculateBucket ⟨"k", [], ⟨7, 3, 1, 2⟩, ⟨6, 0, 1, 2⟩⟩ .pvm
          .marginPerUnit).totalChange) :=
  ⟨Or.inl le_rfl,
    (c2_new_discontinued ⟨0, 5, 0, 0⟩ ⟨7, 3, 1, 2⟩ .pvm .marginPerUnit "k" []).1
      (Or.inl (by norm_num)),
    (c2_new_discontinued ⟨7, 3, 1, 2⟩ ⟨6, 0, 1, 2⟩ .pvm .marginPerUnit "k" []).2
      (Or.inr (by norm_num))⟩

/-- Claim C10: `classifyPeriod` tests the PY range first, so a date lying in
both ranges is classified PY; the CY tag is returned exactly for dates
inside the CY range and outside the PY range. -/
theorem c10_classify_overlap (dt : JsDate) (pyRange cyRange : PeriodUtils.DateRange) :
    ((jsDateLe pyRange.start dt && jsDateLe dt pyRange.endDate) = true →
      PeriodUtils.classifyPeriod dt pyRange cyRange = some "PY") ∧
    (PeriodUtils.classifyPeriod dt pyRange cyRange = some "CY" ↔
      ((jsDateLe cyRange.start dt && jsDateLe dt cyRange.endDate) = true ∧
        ¬ (jsDateLe pyRange.start dt && jsDateLe dt pyRange.endDate) = true)) := by
  constructor
  · intro h
    simp [PeriodUtils.classifyPeriod, h]
  · constructor
    · intro h
      by_cases hp : (jsDateLe pyRange.start dt && jsDateLe dt pyRange.endDate) = true
      · simp [PeriodUtils.classifyPeriod, hp] at h
      · by_cases hc : (jsDateLe cyRange.start dt && jsDateLe dt cyRange.endDate) = true
        · exact ⟨hc, hp⟩
        · simp [PeriodUtils.classifyPeriod, hp, hc] at h
    · rintro ⟨hc, hp⟩
      simp [PeriodUtils.classifyPeriod, hp, hc]

/-- Witness for C10: with overlapping ranges, an overlapped date classifies
PY, and a CY-only date classifies CY. -/
theorem c10_classify_overlap_witness :
    PeriodUtils.classifyPeriod ⟨2023, 6, 15⟩ ⟨⟨2023, 1, 1⟩, ⟨2023, 12, 31⟩⟩
      ⟨⟨2023, 6, 1⟩, ⟨2024, 5, 31⟩⟩ = some "PY" ∧
    PeriodUtils.classifyPeriod ⟨2024, 3, 1⟩ ⟨⟨2023, 1, 1⟩, ⟨2023, 12, 31⟩⟩
      ⟨⟨2023, 6, 1⟩, ⟨2024, 5, 31⟩⟩ = some "CY" :=
  ⟨(c10_classify_overlap ⟨2023, 6, 15⟩ ⟨⟨2023, 1, 1⟩, ⟨2023, 12, 31⟩⟩
      ⟨⟨2023, 6, 1⟩, ⟨2024, 5, 31⟩⟩).1 (by decide),
    ((c10_classify_overlap ⟨2024, 3, 1⟩ ⟨⟨2023, 1, 1⟩, ⟨2023, 12, 31⟩⟩
      ⟨⟨2023, 6, 1⟩, ⟨2024, 5, 31⟩⟩).2).mpr (by decide)⟩

/-- Claim C3, failing input: the well-formed CSV text consisting of the
single row with fields x,y (quoted) and 5, split after its third character,
is parsed differently from the whole text: the remainder reconstruction
re-quotes the partial field x-comma and then re-opens the quote after the
last comma of the reconstructed text, but that comma lies inside the quoted
field, so re-scanning yields the corrupted field x-comma-quote-y.  Parsing
the same text as one chunk (or split after 2, 4, 5, 6, 7 or 8 characters)
yields the correct row. -/
theorem c3_chunk_boundary_failure :
    CSVParser.parseChunks ["\"x,y\",5\n"] = [["x,y", "5"]] ∧
    CSVParser.parseChunks ["\"x,", "y\",5\n"] = [["x,\"y", "5"]] ∧
    CSVParser.parseChunks ["\"x,", "y\",5\n"] ≠ CSVParser.parseChunks ["\"x,y\",5\n"] ∧
    CSVParser.parseChunks ["\"", "x,y\",5\n"] = [["x", "y,5"]] := by
  refine ⟨rfl, rfl, ?_, rfl⟩
  intro h
  rw [show CSVParser.parseChunks ["\"x,", "y\",5\n"] = [["x,\"y", "5"]] from rfl,
    show CSVParser.parseChunks ["\"x,y\",5\n"] = [["x,y", "5"]] from rfl] at h
  simp at h

/-! ## Shared lemmas: negatives-ledger accounting (claim C4) -/

theorem negTotalCount_append (l : List (String × NegAcc)) (p : String × NegAcc) :
    Aggregator.negTotalCount (l ++ [p]) = Aggregator.negTotalCount l + p.2.count := by
  simp [Aggregator.negTotalCount]

theorem map_objSet_of_not_mem {l : List (String × NegAcc)} {key : String}
    (hk : ∀ p ∈ l, p.1 ≠ key) (v : NegAcc) :
    l.map (fun p => if p.1 = key then (key, v) else p) = l := by
  induction l with
  | nil => rfl
  | cons a t ih =>
    simp only [List.map_cons]
    rw [if_neg (hk a (List.mem_cons_self _ _)), ih (fun p hp => hk p (List.mem_cons_of_mem _ hp))]

theorem negTotalCount_objSet_bump {l : List (String × NegAcc)} {key : String} {n : NegAcc}
    (hnd : (l.map Prod.fst).Nodup)
    (hget : BridgeCalculator.objGet l key = some n) {v : NegAcc}
    (hv : v.count = n.count + 1) :
    Aggregator.negTotalCount (BridgeCalculator.objSet l key v) =
      Aggregator.negTotalCount l + 1 := by
  induction l with
  | nil => simp [BridgeCalculator.objGet] at hget
  | cons a t ih =>
    simp only [List.map_cons, List.nodup_cons] at hnd
    by_cases ha : a.1 = key
    · have hfind : (a :: t).find? (fun p => p.1 = key) = some a :=
        List.find?_cons_of_pos _ (by simp [ha])
      have hgeta : BridgeCalculator.objGet (a :: t) key = some a.2 := by
        simp [BridgeCalculator.objGet, hfind]
      rw [hgeta] at hget
      injection hget with hget
      have hset : BridgeCalculator.objSet (a :: t) key v = (key, v) :: t := by
        simp only [BridgeCalculator.objSet, hfind]
        rw [if_pos (show (some a).isSome = true from rfl)]
        simp only [List.map_cons, if_pos ha]
        rw [map_objSet_of_not_mem (fun p hp h => hnd.1 (by
          rw [ha, ← h]
          exact List.mem_map_of_mem Prod.fst hp)) v]
      rw [hset]
      simp only [Aggregator.negTotalCount, List.map_cons, List.sum_cons]
      rw [hv, ← hget]
      omega
    · have hfind : (a :: t).find? (fun p => p.1 = key) = t.find? (fun p => p.1 = key) :=
        List.find?_cons_of_neg _ (by simp [ha])
      have hgett : BridgeCalculator.objGet (a :: t) key = BridgeCalculator.objGet t key := by
        simp [BridgeCalculator.objGet, hfind]
      rw [hgett] at hget
      have hsome : (t.find? (fun p => p.1 = key)).isSome := by
        simp only [BridgeCalculator.objGet] at hget
        rcases hf : t.find? (fun p => p.1 = key) with _ | p2
        · rw [hf] at hget; cases hget
        · rw [hf]; rfl
      have recset : BridgeCalculator.objSet (a :: t) key v =
          a :: BridgeCalculator.objSet t key v := by
        simp only [BridgeCalculator.objSet, hfind]
        rw [if_pos hsome, if_pos hsome]
        simp [if_neg ha]
      rw [recset]
      have ihv := ih hnd.2 hget
      simp only [Aggregator.negTotalCount, List.map_cons, List.sum_cons] at ihv ⊢
      omega

theorem negUpdate_count (entries : List (String × NegAcc)) (key : String)
    (s q c : JsNum) (hnd : (entries.map Prod.fst).Nodup) :
    Aggregator.negTotalCount (Aggregator.negUpdate entries key s q c) =
      Aggregator.negTotalCount entries + 1 := by
  unfold Aggregator.negUpdate
  rcases hget : BridgeCalculator.objGet entries key with _ | n
  · rw [negTotalCount_append]
    rfl
  · exact negTotalCount_objSet_bump hnd hget rfl

theorem negUpdate_nodup (entries : List (String × NegAcc)) (key : String)
    (s q c : JsNum) (hnd : (entries.map Prod.fst).Nodup) :
    ((Aggregator.negUpdate entries key s q c).map Prod.fst).Nodup := by
  unfold Aggregator.negUpdate
  rcases hget : BridgeCalculator.objGet entries key with _ | n
  · have hkey : key ∉ entries.map Prod.fst := by
      intro hmem
      rcases List.mem_map.mp hmem with ⟨p, hp, hp1⟩
      have : (entries.find? (fun q => q.1 = key)).isSome :=
        List.find?_isSome.mpr ⟨p, hp, by simp [hp1]⟩
      simp only [BridgeCalculator.objGet] at hget
      rcases hf : entries.find? (fun q => q.1 = key) with _ | p2
      · rw [hf] at this; cases this
      · rw [hf] at hget; cases hget
    rw [List.map_append, List.nodup_append]
    refine ⟨hnd, List.nodup_singleton _, ?_⟩
    simpa [List.disjoint_singleton] using hkey
  · simp only [BridgeCalculator.objSet]
    split
    · have : (entries.map (fun p => if p.1 = key then (key, Aggregator.negBump n s q c) else p)).map
          Prod.fst = entries.map Prod.fst := by
        rw [List.map_map]
        apply List.map_congr_left
        intro p _
        by_cases h : p.1 = key <;> simp [h]
      rw [this]
      exact hnd
    · rename_i hnone
      exact absurd (by
        simp only [BridgeCalculator.objGet] at hget
        rcases hf : entries.find? (fun q => q.1 = key) with _ | p2
        · rw [hf] at hget; cases hget
        · rw [hf]; rfl) hnone
/-- The row-accounting invariant of claim C4 together with the structural
fact (unique ledger keys) that sustains it. -/
def c4Inv (ctx : AggCtx) : Prop :=
  ctx.stats.totalRows = ctx.stats.includedRows + ctx.stats.excludedRows ∧
  ctx.stats.excludedRows = ctx.stats.parseErrors + ctx.stats.outsidePeriodRows +
    Aggregator.negTotalCount ctx.negatives ∧
  (ctx.negatives.map Prod.fst).Nodup

theorem processRow_c4Inv (ctx : AggCtx) (row : String → Option String)
    (h : c4Inv ctx) : c4Inv (Aggregator.processRow ctx row).2 := by
  obtain ⟨h1, h2, h3⟩ := h
  unfold c4Inv Aggregator.processRow
  rcases hd : PeriodUtils.parseDate (row ctx.config.dateColumn) ctx.config.dateFormat with _ | date
  all_goals simp only [hd]
  · exact ⟨by (try simp); omega, by (try simp); omega, by simpa using h3⟩
  · rcases hp : Aggregator.periodOf ctx date with ⟨_ | per, fiscalYear⟩
    all_goals simp only [hp]
    · exact ⟨by (try simp); omega, by (try simp); omega, by simpa using h3⟩
    · split
      · exact ⟨by (try simp); omega, by (try simp); omega, by simpa using h3⟩
      · split
        · refine ⟨by (try simp); omega, ?_, ?_⟩
          · simp only
            rw [negUpdate_count _ _ _ _ _ h3]
            omega
          · exact negUpdate_nodup _ _ _ _ _ h3
        · exact ⟨by (try simp); omega, by (try simp); omega, by simpa using h3⟩

theorem processAll_c4Inv (rows : List (String → Option String)) (ctx : AggCtx)
    (h : c4Inv ctx) : c4Inv (Aggregator.processAll rows ctx) := by
  induction rows generalizing ctx with
  | nil => exact h
  | cons r rest ih => exact ih _ (processRow_c4Inv ctx r h)

theorem createContext_c4Inv (config : AggConfig) : c4Inv (Aggregator.createContext config) := by
  unfold Aggregator.createContext c4Inv
  by_cases hm : config.fiscalYears.isEmpty <;>
    simp [hm, Aggregator.negTotalCount, Aggregator.NegAcc.zero]

/-- Claim C4: after any sequence of processRow calls on a context created by
createContext, totalRows equals includedRows plus excludedRows, and
excludedRows equals parseErrors plus outsidePeriodRows plus the sum over all
period tags of the negatives-ledger counts, for any input stream of
records. -/
theorem c4_row_accounting (config : AggConfig) (rows : List (String → Option String)) :
    (Aggregator.processAll rows (Aggregator.createContext config)).stats.totalRows =
      (Aggregator.processAll rows (Aggregator.createContext config)).stats.includedRows +
      (Aggregator.processAll rows (Aggregator.createContext config)).stats.excludedRows ∧
    (Aggregator.processAll rows (Aggregator.createContext config)).stats.excludedRows =
      (Aggregator.processAll rows (Aggregator.createContext config)).stats.parseErrors +
      (Aggregator.processAll rows (Aggregator.createContext config)).stats.outsidePeriodRows +
      Aggregator.negTotalCount
        (Aggregator.processAll rows (Aggregator.createContext config)).negatives := by
  have h := processAll_c4Inv rows _ (createContext_c4Inv config)
  exact ⟨h.1, h.2.1⟩

/-! ## Shared lemmas: JS object get/set -/

theorem objGet_cons_self {α β : Type} [DecidableEq α] (k : α) (v : β) (l : List (α × β)) :
    BridgeCalculator.objGet ((k, v) :: l) k = some v := by
  simp [BridgeCalculator.objGet, List.find?_cons_of_pos]

theorem objGet_cons_ne {α β : Type} [DecidableEq α] {a : α × β} {k : α}
    (h : a.1 ≠ k) (l : List (α × β)) :
    BridgeCalculator.objGet (a :: l) k = BridgeCalculator.objGet l k := by
  have hfind : (a :: l).find? (fun p => p.1 = k) = l.find? (fun p => p.1 = k) :=
    List.find?_cons_of_neg _ (by simp [h])
  simp [BridgeCalculator.objGet, hfind]

theorem objGet_append_of_none {α β : Type} [DecidableEq α] {l : List (α × β)} {k : α}
    (h : BridgeCalculator.objGet l k = none) (l2 : List (α × β)) :
    BridgeCalculator.objGet (l ++ l2) k = BridgeCalculator.objGet l2 k := by
  induction l with
  | nil => simp
  | cons a t ih =>
    by_cases ha : a.1 = k
    · rcases a with ⟨a1, a2⟩
      subst ha
      rw [objGet_cons_self] at h
      cases h
    · rw [objGet_cons_ne ha] at h
      rw [List.cons_append, objGet_cons_ne ha]
      exact ih h

theorem objGet_append_of_some {α β : Type} [DecidableEq α] {l : List (α × β)} {k : α} {v : β}
    (h : BridgeCalculator.objGet l k = some v) (l2 : List (α × β)) :
    BridgeCalculator.objGet (l ++ l2) k = some v := by
  induction l with
  | nil => simp [BridgeCalculator.objGet] at h
  | cons a t ih =>
    by_cases ha : a.1 = k
    · rcases a with ⟨a1, a2⟩
      subst ha
      rw [objGet_cons_self] at h
      rw [List.cons_append, objGet_cons_self]
      exact h
    · rw [objGet_cons_ne ha] at h
      rw [List.cons_append, objGet_cons_ne ha]
      exact ih h

theorem objSet_of_some {α β : Type} [DecidableEq α] {l : List (α × β)} {k : α} {n : β}
    (h : BridgeCalculator.objGet l k = some n) (v : β) :
    BridgeCalculator.objSet l k v = l.map (fun p => if p.1 = k then (k, v) else p) := by
  simp only [BridgeCalculator.objSet]
  rw [if_pos]
  simp only [BridgeCalculator.objGet] at h
  rcases hf : l.find? (fun p => p.1 = k) with _ | p2
  · rw [hf] at h; cases h
  · rw [hf]; rfl

theorem objSet_of_none {α β : Type} [DecidableEq α] {l : List (α × β)} {k : α}
    (h : BridgeCalculator.objGet l k = none) (v : β) :
    BridgeCalculator.objSet l k v = l ++ [(k, v)] := by
  simp only [BridgeCalculator.objSet]
  rw [if_neg]
  simp only [BridgeCalculator.objGet] at h
  rcases hf : l.find? (fun p => p.1 = k) with _ | p2
  · simp [hf]
  · rw [hf] at h; cases h

theorem objGet_map_set_self {α β : Type} [DecidableEq α] {l : List (α × β)} {k : α} {n : β}
    (h : BridgeCalculator.objGet l k = some n) (v : β) :
    BridgeCalculator.objGet (l.map (fun p => if p.1 = k then (k, v) else p)) k = some v := by
  induction l with
  | nil => simp [BridgeCalculator.objGet] at h
  | cons a t ih =>
    by_cases ha : a.1 = k
    · simp only [List.map_cons, if_pos ha]
      exact objGet_cons_self _ _ _
    · rw [objGet_cons_ne ha] at h
      simp only [List.map_cons, if_neg ha]
      rw [objGet_cons_ne ha]
      exact ih h

theorem objGet_map_set_ne {α β : Type} [DecidableEq α] (l : List (α × β)) (k : α) (v : β)
    {k2 : α} (hne : k2 ≠ k) :
    BridgeCalculator.objGet (l.map (fun p => if p.1 = k then (k, v) else p)) k2 =
      BridgeCalculator.objGet l k2 := by
  induction l with
  | nil => rfl
  | cons a t ih =>
    by_cases ha : a.1 = k
    · simp only [List.map_cons, if_pos ha]
      rw [objGet_cons_ne (show (k, v).1 ≠ k2 from fun hh => hne hh.symm),
        objGet_cons_ne (show a.1 ≠ k2 from fun hh => hne ((ha ▸ hh : k = k2).symm ▸ rfl))]
      exact ih
    · simp only [List.map_cons, if_neg ha]
      by_cases ha2 : a.1 = k2
      · rcases a with ⟨a1, a2⟩
        subst ha2
        rw [objGet_cons_self, objGet_cons_self]
      · rw [objGet_cons_ne ha2, objGet_cons_ne ha2]
        exact ih

theorem objGet_objSet_self {α β : Type} [DecidableEq α] {l : List (α × β)} (k : α) (v : β) :
    BridgeCalculator.objGet (BridgeCalculator.objSet l k v) k = some v := by
  rcases hg : BridgeCalculator.objGet l k with _ | n
  · rw [objSet_of_none hg v, objGet_append_of_none hg]
    exact objGet_cons_self _ _ _
  · rw [objSet_of_some hg v]
    exact objGet_map_set_self hg v

theorem objGet_objSet_ne {α β : Type} [DecidableEq α] (l : List (α × β)) (k : α) (v : β)
    {k2 : α} (hne : k2 ≠ k) :
    BridgeCalculator.objGet (BridgeCalculator.objSet l k v) k2 =
      BridgeCalculator.objGet l k2 := by
  rcases hg : BridgeCalculator.objGet l k with _ | n
  · rw [objSet_of_none hg v]
    rcases hg2 : BridgeCalculator.objGet l k2 with _ | m
    · rw [objGet_append_of_none hg2, objGet_cons_ne (show (k, v).1 ≠ k2 from fun hh => hne hh.symm)]
      rfl
    · exact objGet_append_of_some hg2 _
  · rw [objSet_of_some hg v]
    exact objGet_map_set_ne l k v hne

/-! ## Claim C5: the negative/zero-value rule -/

theorem negUpdate_objGet_same (entries : List (String × NegAcc)) (key : String)
    (s q c : JsNum) :
    BridgeCalculator.objGet (Aggregator.negUpdate entries key s q c) key =
      some (Aggregator.negBump
        ((BridgeCalculator.objGet entries key).getD Aggregator.NegAcc.zero) s q c) := by
  unfold Aggregator.negUpdate
  rcases hg : BridgeCalculator.objGet entries key with _ | n
  · rw [objGet_append_of_none hg]
    simp [objGet_cons_self]
  · simp only [Option.getD_some]
    exact objGet_objSet_self key _

theorem negUpdate_objGet_other (entries : List (String × NegAcc)) (key : String)
    (s q c : JsNum) {k2 : String} (hne : k2 ≠ key) :
    BridgeCalculator.objGet (Aggregator.negUpdate entries key s q c) k2 =
      BridgeCalculator.objGet entries k2 := by
  unfold Aggregator.negUpdate
  rcases hg : BridgeCalculator.objGet entries key with _ | n
  · rcases hg2 : BridgeCalculator.objGet entries k2 with _ | m
    · rw [objGet_append_of_none hg2, objGet_cons_ne (show _ ≠ k2 from fun hh => hne hh.symm)]
      rfl
    · exact objGet_append_of_some hg2 _
  · exact objGet_objSet_ne entries key _ hne

/-- Claim C5: for a record whose date parses, falls in a period, and whose
sales and quantity parse to finite numbers with sales nonpositive or
quantity nonpositive, processRow returns false, leaves the whole main
bucket map unchanged, leaves includedRows unchanged (incrementing
excludedRows), and adds the row's count, sales, quantity and NaN-guarded
cost into the negatives-ledger entry for the row's period tag, leaving every
other ledger entry unchanged.  The ledger lives outside the bucket map and
is never merged into it. -/
theorem c5_negative_row (ctx : AggCtx) (row : String → Option String)
    (date : JsDate) (per : String) (fy : Option ℤ) (s q : ℚ)
    (hd : PeriodUtils.parseDate (row ctx.config.dateColumn) ctx.config.dateFormat = some date)
    (hp : Aggregator.periodOf ctx date = (some per, fy))
    (hs : CSVParser.parseNumber (row ctx.config.salesColumn) = .num s)
    (hq : CSVParser.parseNumber (row ctx.config.quantityColumn) = .num q)
    (hneg : s ≤ 0 ∨ q ≤ 0) :
    (Aggregator.processRow ctx row).1 = false ∧
    (Aggregator.processRow ctx row).2.data = ctx.data ∧
    (Aggregator.processRow ctx row).2.stats.includedRows = ctx.stats.includedRows ∧
    (Aggregator.processRow ctx row).2.stats.excludedRows = ctx.stats.excludedRows + 1 ∧
    (BridgeCalculator.objGet (Aggregator.processRow ctx row).2.negatives
        (if ctx.isMultiYear then per else if per = "PY" then "py" else "cy") =
      some (Aggregator.negBump
        ((BridgeCalculator.objGet ctx.negatives
          (if ctx.isMultiYear then per else if per = "PY" then "py" else "cy")).getD
            Aggregator.NegAcc.zero)
        (.num s) (.num q)
        (match ctx.config.costColumn with
         | some cc => CSVParser.parseNumber (row cc)
         | none => .num 0))) ∧
    (∀ k2, k2 ≠ (if ctx.isMultiYear then per else if per = "PY" then "py" else "cy") →
      BridgeCalculator.objGet (Aggregator.processRow ctx row).2.negatives k2 =
        BridgeCalculator.objGet ctx.negatives k2) := by
  have hnan : ((CSVParser.parseNumber (row ctx.config.salesColumn)).isNaN = true ∨
      (CSVParser.parseNumber (row ctx.config.quantityColumn)).isNaN = true) = False := by
    simp [hs, hq, JsNum.isNaN]
  have hle : (jleZero (CSVParser.parseNumber (row ctx.config.salesColumn)) = true ∨
      jleZero (CSVParser.parseNumber (row ctx.config.quantityColumn)) = true) := by
    rcases hneg with h | h
    · exact Or.inl (by simp [hs, jleZero, h])
    · exact Or.inr (by simp [hq, jleZero, h])
  unfold Aggregator.processRow
  simp only [hd, hp]
  rw [if_neg (by simp [hs, hq, JsNum.isNaN]), if_pos hle]
  refine ⟨rfl, rfl, rfl, rfl, ?_, ?_⟩
  · simpa only [hs, hq] using negUpdate_objGet_same ctx.negatives _
      (CSVParser.parseNumber (row ctx.config.salesColumn))
      (CSVParser.parseNumber (row ctx.config.quantityColumn)) _
  · intro k2 hk2
    exact negUpdate_objGet_other ctx.negatives _ _ _ _ hk2

section
attribute [local semireducible] Rat.add Rat.mul Rat.inv Rat.sub

def c5Cfg : AggConfig :=
  { dimensions := ["region"],
    dateColumn := "date", salesColumn := "sales", quantityColumn := "qty",
    costColumn := none, dateFormat := some "YYYY-MM-DD",
    pyRange := ⟨⟨2023, 1, 1⟩, ⟨2023, 12, 31⟩⟩,
    cyRange := ⟨⟨2024, 1, 1⟩, ⟨2024, 12, 31⟩⟩,
    fiscalYears := [] }

def c5Row : String → Option String := fun c =>
  if c = "date" then some "2023-05-01" else if c = "sales" then some "100"
  else if c = "qty" then some "0" else if c = "region" then some "East" else none

/-- Witness for C5: the spec's example row (sales 100, quantity 0) in a
fresh two-period context is excluded and lands in the PY ledger entry with
count 1 and sales 100. -/
theorem c5_negative_row_witness :
    (Aggregator.processRow (Aggregator.createContext c5Cfg) c5Row).1 = false ∧
    (Aggregator.processRow (Aggregator.createContext c5Cfg) c5Row).2.data = [] ∧
    BridgeCalculator.objGet
      (Aggregator.processRow (Aggregator.createContext c5Cfg) c5Row).2.negatives "py" =
      some ⟨1, .num 100, .num 0, .num 0⟩ := by
  have h := c5_negative_row (Aggregator.createContext c5Cfg) c5Row ⟨2023, 5, 1⟩ "PY" none
    100 0 (by decide) (by decide) (by decide) (by decide) (Or.inr (by norm_num))
  refine ⟨h.1, h.2.1, ?_⟩
  have h5 := h.2.2.2.2.1
  rw [show (if (Aggregator.createContext c5Cfg).isMultiYear then "PY"
      else if "PY" = "PY" then "py" else "cy") = "py" from rfl] at h5
  rw [h5]
  decide

end

/-! ## Shared lemmas: date-format detection (claim C6) -/

theorem scoreOf_nonneg (vs : List String) (f : DateFormat) : 0 ≤ PeriodUtils.scoreOf vs f := by
  unfold PeriodUtils.scoreOf
  positivity

theorem bestFold_go_none (vs : List String) (l : List DateFormat)
    (hl : ∀ f ∈ l, PeriodUtils.scoreOf vs f = 0) :
    l.foldl (fun acc f => if PeriodUtils.scoreOf vs f > acc.2 then (some f.id, PeriodUtils.scoreOf vs f) else acc)
      ((none : Option String), (0 : ℚ)) = (none, 0) := by
  induction l with
  | nil => rfl
  | cons f t ih =>
    simp only [List.foldl_cons]
    rw [if_neg (by rw [hl f (List.mem_cons_self _ _)]; exact lt_irrefl 0)]
    exact ih (fun g hg => hl g (List.mem_cons_of_mem _ hg))

theorem bestFold_go_le (vs : List String) (l : List DateFormat)
    (acc : Option String × ℚ) :
    acc.2 ≤ (l.foldl (fun acc f => if PeriodUtils.scoreOf vs f > acc.2 then (some f.id, PeriodUtils.scoreOf vs f) else acc) acc).2 := by
  induction l generalizing acc with
  | nil => exact le_rfl
  | cons f t ih =>
    simp only [List.foldl_cons]
    split
    · exact le_trans (le_of_lt (by assumption)) (ih _)
    · exact ih _

theorem bestFold_go_max (vs : List String) (l : List DateFormat)
    (acc : Option String × ℚ) :
    ∀ f ∈ l, PeriodUtils.scoreOf vs f ≤
      (l.foldl (fun acc f => if PeriodUtils.scoreOf vs f > acc.2 then (some f.id, PeriodUtils.scoreOf vs f) else acc) acc).2 := by
  induction l generalizing acc with
  | nil => intro f hf; cases hf
  | cons g t ih =>
    intro f hf
    simp only [List.foldl_cons]
    rcases List.mem_cons.mp hf with rfl | hf2
    · by_cases hgt : PeriodUtils.scoreOf vs f > acc.2
      · rw [if_pos hgt]
        exact bestFold_go_le vs t _
      · rw [if_neg hgt]
        exact le_trans (not_lt.mp hgt) (bestFold_go_le vs t _)
    · split
      · exact ih _ f hf2
      · exact ih _ f hf2

theorem bestFold_go_winner (vs : List String) (l : List DateFormat)
    (acc : Option String × ℚ) :
    (l.foldl (fun acc f => if PeriodUtils.scoreOf vs f > acc.2 then (some f.id, PeriodUtils.scoreOf vs f) else acc) acc) = acc ∨
    ∃ f ∈ l, (l.foldl (fun acc f => if PeriodUtils.scoreOf vs f > acc.2 then (some f.id, PeriodUtils.scoreOf vs f) else acc) acc) = (some f.id, PeriodUtils.scoreOf vs f) := by
  induction l generalizing acc with
  | nil => exact Or.inl rfl
  | cons g t ih =>
    simp only [List.foldl_cons]
    split
    · rcases ih ((some g.id, PeriodUtils.scoreOf vs g)) with h | ⟨f, hf, heq⟩
      · exact Or.inr ⟨g, List.mem_cons_self _ _, h⟩
      · exact Or.inr ⟨f, List.mem_cons_of_mem _ hf, heq⟩
    · rcases ih acc with h | ⟨f, hf, heq⟩
      · exact Or.inl h
      · exact Or.inr ⟨f, List.mem_cons_of_mem _ hf, heq⟩

theorem scanDisamb_forced_dd (vs : List String)
    (hex : ∃ s ∈ vs, PeriodUtils.forcesDD s = true)
    (hmm : ∀ s ∈ vs, PeriodUtils.forcesMM s = true → PeriodUtils.forcesDD s = true) :
    PeriodUtils.scanDisamb vs = some "DD/MM/YYYY" := by
  induction vs with
  | nil => rcases hex with ⟨s, hs, _⟩; cases hs
  | cons s t ih =>
    unfold PeriodUtils.scanDisamb
    by_cases hdd : PeriodUtils.forcesDD s = true
    · rw [if_pos hdd]
    · rw [if_neg hdd]
      have hmmf : PeriodUtils.forcesMM s ≠ true := by
        intro hc
        exact hdd (hmm s (List.mem_cons_self _ _) hc)
      rw [if_neg hmmf]
      rcases hex with ⟨s2, hs2, hdd2⟩
      rcases List.mem_cons.mp hs2 with rfl | hs2t
      · exact absurd hdd2 hdd
      · exact ih ⟨s2, hs2t, hdd2⟩ (fun x hx => hmm x (List.mem_cons_of_mem _ hx))

theorem scanDisamb_forced_mm (vs : List String)
    (hex : ∃ s ∈ vs, PeriodUtils.forcesMM s = true)
    (hdd : ∀ s ∈ vs, PeriodUtils.forcesDD s ≠ true) :
    PeriodUtils.scanDisamb vs = some "MM/DD/YYYY" := by
  induction vs with
  | nil => rcases hex with ⟨s, hs, _⟩; cases hs
  | cons s t ih =>
    unfold PeriodUtils.scanDisamb
    rw [if_neg (hdd s (List.mem_cons_self _ _))]
    by_cases hsm : PeriodUtils.forcesMM s = true
    · rw [if_pos hsm]
    · rw [if_neg hsm]
      rcases hex with ⟨s2, hs2, hmm2⟩
      rcases List.mem_cons.mp hs2 with rfl | hs2t
      · exact absurd hmm2 hsm
      · exact ih ⟨s2, hs2t, hmm2⟩ (fun x hx => hdd x (List.mem_cons_of_mem _ hx))

theorem scanDisamb_none (vs : List String)
    (h : ∀ s ∈ vs, PeriodUtils.forcesDD s ≠ true ∧ PeriodUtils.forcesMM s ≠ true) :
    PeriodUtils.scanDisamb vs = none := by
  induction vs with
  | nil => rfl
  | cons s t ih =>
    unfold PeriodUtils.scanDisamb
    rw [if_neg (h s (List.mem_cons_self _ _)).1, if_neg (h s (List.mem_cons_self _ _)).2]
    exact ih (fun x hx => h x (List.mem_cons_of_mem _ hx))

section
attribute [local semireducible] Rat.add Rat.mul Rat.inv Rat.sub

/-- Claim C6, counterexample: on the single sample 32/01/2024 the two
slash formats tie (both parse it to an in-range year after JS date
normalization), the sample's first component 32 exceeds 12, yet the result
is the month-first format, not the day-first one: the source additionally
requires the component to be at most 31 before it forces a format. -/
theorem c6_counterexample :
    jGt (jsParseInt "32") 12 = true ∧
    |PeriodUtils.scoreById (PeriodUtils.validSamplesOf ["32/01/2024"]) "MM/DD/YYYY" -
      PeriodUtils.scoreById (PeriodUtils.validSamplesOf ["32/01/2024"]) "DD/MM/YYYY"| <
        1 / 10 ∧
    (PeriodUtils.detectDateFormat ["32/01/2024"]).formatId = some "MM/DD/YYYY" ∧
    some "MM/DD/YYYY" ≠ some "DD/MM/YYYY" := by
  refine ⟨by decide, ?_, by decide, by decide⟩
  rw [show PeriodUtils.scoreById (PeriodUtils.validSamplesOf ["32/01/2024"]) "MM/DD/YYYY" =
    1 from by decide]
  rw [show PeriodUtils.scoreById (PeriodUtils.validSamplesOf ["32/01/2024"]) "DD/MM/YYYY" =
    1 from by decide]
  norm_num

/-- Claim C6 (amended): `detectDateFormat` scores every catalog descriptor by
the fraction of valid samples that match its pattern and parse to a year in
1900..2100 and keeps a maximal-score descriptor (the first one to strictly
exceed all earlier scores); when the two slash orderings score within 0.1 of
each other and the kept descriptor is one of them, a sample whose first
slash component exceeds 12 AND IS AT MOST 31 forces the day-first format,
and one whose second component exceeds 12 and is at most 31 forces the
month-first format (samples scanned in order, the first component checked
before the second, as captured by forcesDD/forcesMM); with no disambiguating
sample the fold winner stands; the formatId is null when no sample is
parseable; and the claim's example lists resolve as stated. -/
theorem c6_detection :
    (PeriodUtils.detectDateFormat ["13/01/2024", "02/05/2024"]).formatId =
      some "DD/MM/YYYY" ∧
    (PeriodUtils.detectDateFormat ["01/13/2024"]).formatId = some "MM/DD/YYYY" ∧
    (∀ samples : List String,
      (∀ f ∈ CONFIG_DATE_FORMATS, ∀ s ∈ PeriodUtils.validSamplesOf samples,
        PeriodUtils.validParseB f s = false) →
      (PeriodUtils.detectDateFormat samples).formatId = none) ∧
    (∀ vs : List String, ∀ f ∈ CONFIG_DATE_FORMATS,
      PeriodUtils.scoreOf vs f ≤ (PeriodUtils.bestFold vs).2) ∧
    (∀ vs : List String, ∀ fid : String, (PeriodUtils.bestFold vs).1 = some fid →
      ∃ f ∈ CONFIG_DATE_FORMATS, f.id = fid ∧
        PeriodUtils.scoreOf vs f = (PeriodUtils.bestFold vs).2) ∧
    (∀ samples : List String, ∀ fid : String,
      samples ≠ [] → PeriodUtils.validSamplesOf samples ≠ [] →
      (PeriodUtils.bestFold (PeriodUtils.validSamplesOf samples)).1 = some fid →
      ¬ (fid = "MM/DD/YYYY" ∨ fid = "DD/MM/YYYY") →
      (PeriodUtils.detectDateFormat samples).formatId = some fid) ∧
    (∀ samples : List String, ∀ fid : String,
      samples ≠ [] → PeriodUtils.validSamplesOf samples ≠ [] →
      (PeriodUtils.bestFold (PeriodUtils.validSamplesOf samples)).1 = some fid →
      (fid = "MM/DD/YYYY" ∨ fid = "DD/MM/YYYY") →
      |PeriodUtils.scoreById (PeriodUtils.validSamplesOf samples) "MM/DD/YYYY" -
        PeriodUtils.scoreById (PeriodUtils.validSamplesOf samples) "DD/MM/YYYY"| < 1 / 10 →
      ((∃ s ∈ PeriodUtils.validSamplesOf samples, PeriodUtils.forcesDD s = true) →
        (∀ s ∈ PeriodUtils.validSamplesOf samples,
          PeriodUtils.forcesMM s = true → PeriodUtils.forcesDD s = true) →
        (PeriodUtils.detectDateFormat samples).formatId = some "DD/MM/YYYY") ∧
      ((∃ s ∈ PeriodUtils.validSamplesOf samples, PeriodUtils.forcesMM s = true) →
        (∀ s ∈ PeriodUtils.validSamplesOf samples, PeriodUtils.forcesDD s ≠ true) →
        (PeriodUtils.detectDateFormat samples).formatId = some "MM/DD/YYYY") ∧
      ((∀ s ∈ PeriodUtils.validSamplesOf samples,
          PeriodUtils.forcesDD s ≠ true ∧ PeriodUtils.forcesMM s ≠ true) →
        (PeriodUtils.detectDateFormat samples).formatId = some fid)) := by
  have hdetect : ∀ samples : List String, samples ≠ [] →
      PeriodUtils.validSamplesOf samples ≠ [] →
      (PeriodUtils.detectDateFormat samples).formatId =
        PeriodUtils.detectChoose (PeriodUtils.validSamplesOf samples) := by
    intro samples h1 h2
    unfold PeriodUtils.detectDateFormat
    rw [if_neg (by simpa using h1), if_neg (by simpa using h2)]
  refine ⟨?_, ?_, ?_, ?_, ?_, ?_, ?_⟩
  · exact (by decide : (PeriodUtils.detectDateFormat ["13/01/2024", "02/05/2024"]).formatId =
      some "DD/MM/YYYY")
  · exact (by decide : (PeriodUtils.detectDateFormat ["01/13/2024"]).formatId =
      some "MM/DD/YYYY")
  · intro samples hzero
    by_cases h1 : samples = []
    · subst h1; rfl
    · by_cases h2 : PeriodUtils.validSamplesOf samples = []
      · unfold PeriodUtils.detectDateFormat
        rw [if_neg (by simpa using h1), if_pos (by simpa using h2)]
      · rw [hdetect samples h1 h2]
        unfold PeriodUtils.detectChoose PeriodUtils.bestFold
        rw [bestFold_go_none _ _ (fun f hf => by
          unfold PeriodUtils.scoreOf PeriodUtils.validCount
          rw [List.filter_eq_nil.mpr (fun s hs => by simp [hzero f hf s hs])]
          simp)]
  · intro vs f hf
    unfold PeriodUtils.bestFold
    exact bestFold_go_max vs CONFIG_DATE_FORMATS (none, 0) f hf
  · intro vs fid hwin
    unfold PeriodUtils.bestFold at hwin ⊢
    rcases bestFold_go_winner vs CONFIG_DATE_FORMATS (none, 0) with h | ⟨f, hf, heq⟩
    · rw [h] at hwin; cases hwin
    · rw [heq] at hwin ⊢
      injection hwin with hwin
      exact ⟨f, hf, hwin, rfl⟩
  · intro samples fid h1 h2 hwin hnot
    rw [hdetect samples h1 h2]
    unfold PeriodUtils.detectChoose
    rw [hwin]
    simp only
    rw [if_neg hnot]
  · intro samples fid h1 h2 hwin hpair hamb
    refine ⟨?_, ?_, ?_⟩
    · intro hex hmono
      rw [hdetect samples h1 h2]
      unfold PeriodUtils.detectChoose
      rw [hwin]
      simp only
      rw [if_pos hpair, if_pos hamb, scanDisamb_forced_dd _ hex hmono]
    · intro hex hdd
      rw [hdetect samples h1 h2]
      unfold PeriodUtils.detectChoose
      rw [hwin]
      simp only
      rw [if_pos hpair, if_pos hamb, scanDisamb_forced_mm _ hex hdd]
    · intro hnone
      rw [hdetect samples h1 h2]
      unfold PeriodUtils.detectChoose
      rw [hwin]
      simp only
      rw [if_pos hpair, if_pos hamb, scanDisamb_none _ hnone]

/-- Witness for C6 at the claim's own example: the slash scores tie, the
first sample's first component is 13 (a forced day), and detection returns
the day-first format. -/
theorem c6_detection_witness :
    (PeriodUtils.detectDateFormat ["13/01/2024", "02/05/2024"]).formatId =
      some "DD/MM/YYYY" :=
  (c6_detection.2.2.2.2.2.2 ["13/01/2024", "02/05/2024"] "MM/DD/YYYY"
    (by decide) (by decide) (by decide) (by decide)
    (by
      rw [show PeriodUtils.scoreById
          (PeriodUtils.validSamplesOf ["13/01/2024", "02/05/2024"]) "MM/DD/YYYY" = 1 from
        by decide]
      rw [show PeriodUtils.scoreById
          (PeriodUtils.validSamplesOf ["13/01/2024", "02/05/2024"]) "DD/MM/YYYY" = 1 from
        by decide]
      norm_num)).1 (by decide) (by decide)

end

/-! ## Shared lemmas: decimal digit strings and bridge keys (claim C7) -/

theorem digitVal_ofNat {k : ℕ} (hk : k ≤ 9) : digitVal (Char.ofNat (48 + k)) = k := by
  interval_cases k <;> decide

theorem ofNat_digit_ne_dash {k : ℕ} (hk : k ≤ 9) : Char.ofNat (48 + k) ≠ '-' := by
  interval_cases k <;> decide

theorem digitsToNat_append_one (xs : List Char) (c : Char) :
    digitsToNat (xs ++ [c]) = digitsToNat xs * 10 + digitVal c := by
  simp [digitsToNat, List.foldl_append]

theorem natDigitsF_roundtrip : ∀ (fuel n : ℕ), n < 10 ^ (fuel + 1) →
    digitsToNat (natDigitsF fuel n) = n := by
  intro fuel
  induction fuel with
  | zero =>
    intro n hn
    rw [show (10:ℕ) ^ (0 + 1) = 10 from by norm_num] at hn
    rw [show natDigitsF 0 n = [Char.ofNat (48 + n)] from rfl]
    simp [digitsToNat, digitVal_ofNat (by omega : n ≤ 9)]
  | succ f ih =>
    intro n hn
    unfold natDigitsF
    by_cases h10 : n < 10
    · rw [if_pos h10]
      simp [digitsToNat, digitVal_ofNat (by omega : n ≤ 9)]
    · rw [if_neg h10, digitsToNat_append_one, ih (n / 10) ?hdiv,
        digitVal_ofNat (by omega : n % 10 ≤ 9)]
      · omega
      · case hdiv =>
          refine Nat.div_lt_of_lt_mul ?_
          calc n < 10 ^ (f + 1 + 1) := hn
            _ = 10 * 10 ^ (f + 1) := by ring

theorem digitsToNat_natDigits (n : ℕ) : digitsToNat (natDigits n) = n := by
  unfold natDigits
  refine natDigitsF_roundtrip n n ?_
  calc n < 10 ^ n := Nat.lt_pow_self (by norm_num) n
    _ ≤ 10 ^ (n + 1) := Nat.pow_le_pow_right (by norm_num) (by omega)

theorem natDigits_inj {n m : ℕ} (h : natDigits n = natDigits m) : n = m := by
  have := digitsToNat_natDigits n
  rw [h, digitsToNat_natDigits] at this
  omega

theorem natDigitsF_chars : ∀ (fuel n : ℕ), n < 10 ^ (fuel + 1) →
    ∀ c ∈ natDigitsF fuel n, ∃ k ≤ 9, c = Char.ofNat (48 + k) := by
  intro fuel
  induction fuel with
  | zero =>
    intro n hn c hc
    rw [show (10:ℕ) ^ (0 + 1) = 10 from by norm_num] at hn
    rw [show natDigitsF 0 n = [Char.ofNat (48 + n)] from rfl] at hc
    simp only [List.mem_singleton] at hc
    exact ⟨n, by omega, hc⟩
  | succ f ih =>
    intro n hn c hc
    unfold natDigitsF at hc
    by_cases h10 : n < 10
    · rw [if_pos h10] at hc
      simp only [List.mem_singleton] at hc
      exact ⟨n, by omega, hc⟩
    · rw [if_neg h10] at hc
      rcases List.mem_append.mp hc with hc1 | hc2
      · refine ih (n / 10) (Nat.div_lt_of_lt_mul ?_) c hc1
        calc n < 10 ^ (f + 1 + 1) := hn
          _ = 10 * 10 ^ (f + 1) := by ring
      · simp only [List.mem_singleton] at hc2
        exact ⟨n % 10, by omega, hc2⟩

theorem natDigits_no_dash (n : ℕ) : '-' ∉ natDigits n := by
  intro hmem
  rcases natDigitsF_chars n n
      (calc n < 10 ^ n := Nat.lt_pow_self (by norm_num) n
        _ ≤ 10 ^ (n + 1) := Nat.pow_le_pow_right (by norm_num) (by omega))
      '-' hmem with ⟨k, hk, hc⟩
  exact ofNat_digit_ne_dash hk hc.symm

theorem natDigitsF_ne_nil (fuel n : ℕ) : natDigitsF fuel n ≠ [] := by
  cases fuel with
  | zero => simp [natDigitsF]
  | succ f =>
    unfold natDigitsF
    split <;> simp

theorem natDigits_ne_nil (n : ℕ) : natDigits n ≠ [] := natDigitsF_ne_nil n n

theorem dash_split_unique : ∀ (xs xs' ys ys' : List Char), '-' ∉ xs → '-' ∉ xs' →
    xs ++ '-' :: ys = xs' ++ '-' :: ys' → xs = xs' ∧ ys = ys' := by
  intro xs
  induction xs with
  | nil =>
    intro xs' ys ys' _ hx' heq
    cases xs' with
    | nil => simpa using heq
    | cons a t =>
      simp only [List.nil_append, List.cons_append, List.cons.injEq] at heq
      obtain ⟨h1, -⟩ := heq
      subst h1
      exact absurd (List.mem_cons_self _ _) hx'
  | cons a t ih =>
    intro xs' ys ys' hx hx' heq
    cases xs' with
    | nil =>
      simp only [List.cons_append, List.nil_append, List.cons.injEq] at heq
      obtain ⟨h1, -⟩ := heq
      subst h1
      exact absurd (List.mem_cons_self _ _) hx
    | cons a' t' =>
      simp only [List.cons_append, List.cons.injEq] at heq
      obtain ⟨rfl, heq2⟩ := heq
      obtain ⟨h1, h2⟩ := ih t' ys ys' (fun hm => hx (List.mem_cons_of_mem _ hm))
        (fun hm => hx' (List.mem_cons_of_mem _ hm)) heq2
      exact ⟨by rw [h1], h2⟩

theorem intStr_inj : ∀ {a b : ℤ}, intStr a = intStr b → a = b := by
  intro a b h
  unfold intStr at h
  by_cases ha : a < 0 <;> by_cases hb : b < 0
  · rw [if_pos ha, if_pos hb] at h
    injection h with hh ht
    have := natDigits_inj ht
    omega
  · rw [if_pos ha, if_neg hb] at h
    have hd : '-' ∈ natDigits b.toNat := by
      rw [← h]
      exact List.mem_cons_self _ _
    exact absurd hd (natDigits_no_dash _)
  · rw [if_neg ha, if_pos hb] at h
    have hd : '-' ∈ natDigits a.toNat := by
      rw [h]
      exact List.mem_cons_self _ _
    exact absurd hd (natDigits_no_dash _)
  · rw [if_neg ha, if_neg hb] at h
    have := natDigits_inj h
    omega

theorem intStr_no_middle_dash (i : ℤ) : ∀ c ∈ (intStr i).tail, c ≠ '-' := by
  unfold intStr
  split
  · intro c hc hcd
    exact natDigits_no_dash _ (hcd ▸ hc)
  · intro c hc hcd
    have : c ∈ natDigits i.toNat := List.mem_of_mem_tail hc
    exact natDigits_no_dash _ (hcd ▸ this)

theorem bridgeKey_inj {a b c d : ℤ}
    (h : BridgeCalculator.bridgeKey a b = BridgeCalculator.bridgeKey c d) :
    a = c ∧ b = d := by
  unfold BridgeCalculator.bridgeKey at h
  by_cases ha : a < 0 <;> by_cases hc : c < 0
  · rw [show intStr a = '-' :: natDigits a.natAbs from by simp [intStr, ha],
        show intStr c = '-' :: natDigits c.natAbs from by simp [intStr, hc]] at h
    simp only [List.cons_append, List.cons.injEq] at h
    obtain ⟨-, h⟩ := h
    obtain ⟨h1, h2⟩ := dash_split_unique _ _ _ _ (natDigits_no_dash _) (natDigits_no_dash _) h
    have hac : a = c := by
      have := natDigits_inj h1
      omega
    exact ⟨hac, intStr_inj h2⟩
  · exfalso
    rw [show intStr a = '-' :: natDigits a.natAbs from by simp [intStr, ha]] at h
    have hc0 : intStr c = natDigits c.toNat := by simp [intStr, hc]
    rw [hc0] at h
    have hhead : ('-' :: (natDigits a.natAbs ++ '-' :: intStr b)).head? =
        ((natDigits c.toNat ++ '-' :: intStr d)).head? := by
      rw [← List.cons_append, h]
    rcases hne : natDigits c.toNat with _ | ⟨c0, crest⟩
    · exact natDigits_ne_nil _ hne
    · rw [hne] at hhead
      simp only [List.cons_append, List.head?_cons] at hhead
      injection hhead with hhead
      exact natDigits_no_dash c.toNat (hhead ▸ (hne ▸ List.mem_cons_self c0 crest))
  · exfalso
    rw [show intStr c = '-' :: natDigits c.natAbs from by simp [intStr, hc]] at h
    have ha0 : intStr a = natDigits a.toNat := by simp [intStr, ha]
    rw [ha0] at h
    have hhead : ((natDigits a.toNat ++ '-' :: intStr b)).head? =
        ('-' :: (natDigits c.natAbs ++ '-' :: intStr d)).head? := by
      rw [← List.cons_append, h]
    rcases hne : natDigits a.toNat with _ | ⟨a0, arest⟩
    · exact natDigits_ne_nil _ hne
    · rw [hne] at hhead
      simp only [List.cons_append, List.head?_cons] at hhead
      injection hhead with hhead
      exact natDigits_no_dash a.toNat (hhead ▸ (hne ▸ List.mem_cons_self a0 arest))
  · rw [show intStr a = natDigits a.toNat from by simp [intStr, ha],
        show intStr c = natDigits c.toNat from by simp [intStr, hc]] at h
    obtain ⟨h1, h2⟩ := dash_split_unique _ _ _ _ (natDigits_no_dash _) (natDigits_no_dash _) h
    have hac : a = c := by
      have := natDigits_inj h1
      omega
    exact ⟨hac, intStr_inj h2⟩
/-- The bridge-relevant fields of a two-period bucket result, for comparison
with a stored multi-year bridge entry. -/
def BridgeCalculator.bucketEntryOf (r : BucketResult) : BridgeCalculator.BridgeEntry :=
  ⟨r.totalChange, r.priceImpact, r.volumeImpact, r.mixImpact, r.costImpact,
    r.isNew, r.isDiscontinued⟩

theorem mkBridgeEntry_eq_bucket (lod : String) (dims : List (String × String))
    (py cy : QAcc) (mode : Mode) (d : GmPriceDef) :
    BridgeCalculator.mkBridgeEntry (BridgeCalculator.yearView mode d py)
        (BridgeCalculator.yearView mode d cy) mode d =
      BridgeCalculator.bucketEntryOf
        (BridgeCalculator.calculateBucket ⟨lod, dims, py, cy⟩ mode d) := by
  cases mode <;> cases d <;> rfl

theorem calcYears_go_stable (bucket : BridgeCalculator.MYBucket) (mode : Mode) (d : GmPriceDef)
    (y : ℤ) (yd : QAcc) (hy : BridgeCalculator.objGet bucket.years y = some yd) :
    ∀ (l : List FYConfig) (acc : List (ℤ × BridgeCalculator.YearView)),
      BridgeCalculator.objGet acc y = some (BridgeCalculator.yearView mode d yd) →
      BridgeCalculator.objGet
        (l.foldl
          (fun acc fyc =>
            match BridgeCalculator.objGet bucket.years fyc.fiscalYear with
            | none => acc
            | some yd2 =>
              BridgeCalculator.objSet acc fyc.fiscalYear
                (BridgeCalculator.yearView mode d yd2)) acc) y =
        some (BridgeCalculator.yearView mode d yd) := by
  intro l
  induction l with
  | nil => intro acc hacc; simpa using hacc
  | cons fyc l ih =>
    intro acc hacc
    simp only [List.foldl_cons]
    rcases hb : BridgeCalculator.objGet bucket.years fyc.fiscalYear with _ | yd2
    · simp only [hb]
      exact ih acc hacc
    · simp only [hb]
      by_cases hk : fyc.fiscalYear = y
      · subst hk
        have hyd : yd2 = yd := by rw [hb] at hy; injection hy
        subst hyd
        exact ih _ (objGet_objSet_self _ _)
      · refine ih _ ?_
        rw [objGet_objSet_ne _ _ _ (fun hh => hk hh.symm)]
        exact hacc

theorem calcYears_present (bucket : BridgeCalculator.MYBucket) (mode : Mode) (d : GmPriceDef)
    (fys : List FYConfig) (A : FYConfig) (hA : A ∈ fys) (yd : QAcc)
    (hy : BridgeCalculator.objGet bucket.years A.fiscalYear = some yd) :
    BridgeCalculator.objGet (BridgeCalculator.calcYears bucket mode d fys) A.fiscalYear =
      some (BridgeCalculator.yearView mode d yd) := by
  rw [BridgeCalculator.calcYears]
  have go : ∀ (l : List FYConfig) (acc : List (ℤ × BridgeCalculator.YearView)), A ∈ l →
      BridgeCalculator.objGet
        (l.foldl
          (fun acc fyc =>
            match BridgeCalculator.objGet bucket.years fyc.fiscalYear with
            | none => acc
            | some yd2 =>
              BridgeCalculator.objSet acc fyc.fiscalYear
                (BridgeCalculator.yearView mode d yd2)) acc) A.fiscalYear =
        some (BridgeCalculator.yearView mode d yd) := by
    intro l
    induction l with
    | nil => intro acc hm; exact absurd hm (List.not_mem_nil A)
    | cons fyc l ih =>
      intro acc hm
      simp only [List.foldl_cons]
      rcases List.mem_cons.mp hm with hh | ht
      · subst hh
        rw [show (match BridgeCalculator.objGet bucket.years A.fiscalYear with
            | none => acc
            | some yd2 =>
              BridgeCalculator.objSet acc A.fiscalYear
                (BridgeCalculator.yearView mode d yd2)) =
            BridgeCalculator.objSet acc A.fiscalYear (BridgeCalculator.yearView mode d yd)
          from by rw [hy]]
        exact calcYears_go_stable bucket mode d A.fiscalYear yd hy l _
          (objGet_objSet_self _ _)
      · exact ih _ ht
  exact go fys [] hA

theorem calcBridges_stable (years : List (ℤ × BridgeCalculator.YearView)) (mode : Mode)
    (d : GmPriceDef) (ka kb : ℤ) (py cy : BridgeCalculator.YearView)
    (hpy : BridgeCalculator.objGet years ka = some py)
    (hcy : BridgeCalculator.objGet years kb = some cy) :
    ∀ (ps : List (FYConfig × FYConfig)) (acc : List (List Char × BridgeCalculator.BridgeEntry)),
      BridgeCalculator.objGet acc (BridgeCalculator.bridgeKey ka kb) =
        some (BridgeCalculator.mkBridgeEntry py cy mode d) →
      BridgeCalculator.objGet (BridgeCalculator.calcBridgesGo years mode d acc ps)
          (BridgeCalculator.bridgeKey ka kb) =
        some (BridgeCalculator.mkBridgeEntry py cy mode d) := by
  intro ps
  induction ps with
  | nil => intro acc hacc; simpa [BridgeCalculator.calcBridgesGo] using hacc
  | cons p ps ih =>
    intro acc hacc
    obtain ⟨A, B⟩ := p
    rw [BridgeCalculator.calcBridgesGo]
    rcases hA : BridgeCalculator.objGet years A.fiscalYear with _ | pyA
    · simp only [hA]
      exact ih acc hacc
    · rcases hB : BridgeCalculator.objGet years B.fiscalYear with _ | cyB
      · simp only [hA, hB]
        exact ih acc hacc
      · simp only [hA, hB]
        by_cases hk : BridgeCalculator.bridgeKey A.fiscalYear B.fiscalYear =
            BridgeCalculator.bridgeKey ka kb
        · obtain ⟨hka, hkb⟩ := bridgeKey_inj hk
          rw [hka] at hA
          rw [hkb] at hB
          have h1 : py = pyA := by rw [hpy] at hA; injection hA
          have h2 : cy = cyB := by rw [hcy] at hB; injection hB
          subst h1; subst h2
          refine ih _ ?_
          rw [hk]
          exact objGet_objSet_self _ _
        · refine ih _ ?_
          rw [objGet_objSet_ne _ _ _ (fun hh => hk hh.symm)]
          exact hacc

theorem calcBridges_present (years : List (ℤ × BridgeCalculator.YearView)) (mode : Mode)
    (d : GmPriceDef) (A B : FYConfig) (py cy : BridgeCalculator.YearView)
    (hpy : BridgeCalculator.objGet years A.fiscalYear = some py)
    (hcy : BridgeCalculator.objGet years B.fiscalYear = some cy) :
    ∀ (ps : List (FYConfig × FYConfig)) (acc : List (List Char × BridgeCalculator.BridgeEntry)),
      (A, B) ∈ ps →
      BridgeCalculator.objGet (BridgeCalculator.calcBridgesGo years mode d acc ps)
          (BridgeCalculator.bridgeKey A.fiscalYear B.fiscalYear) =
        some (BridgeCalculator.mkBridgeEntry py cy mode d) := by
  intro ps
  induction ps with
  | nil => intro acc hm; exact absurd hm (List.not_mem_nil _)
  | cons p ps ih =>
    intro acc hm
    rcases List.mem_cons.mp hm with hh | ht
    · subst hh
      rw [BridgeCalculator.calcBridgesGo]
      simp only [hpy, hcy]
      exact calcBridges_stable years mode d A.fiscalYear B.fiscalYear py cy hpy hcy ps _
        (objGet_objSet_self _ _)
    · obtain ⟨A', B'⟩ := p
      rw [BridgeCalculator.calcBridgesGo]
      rcases hA : BridgeCalculator.objGet years A'.fiscalYear with _ | pyA
      · simp only [hA]
        exact ih _ ht
      · rcases hB : BridgeCalculator.objGet years B'.fiscalYear with _ | cyB
        · simp only [hA, hB]
          exact ih _ ht
        · simp only [hA, hB]
          exact ih _ ht

theorem calcBridges_absent (years : List (ℤ × BridgeCalculator.YearView)) (mode : Mode)
    (d : GmPriceDef) (k : List Char) :
    ∀ (ps : List (FYConfig × FYConfig)) (acc : List (List Char × BridgeCalculator.BridgeEntry)),
      (∀ p ∈ ps, BridgeCalculator.bridgeKey p.1.fiscalYear p.2.fiscalYear ≠ k) →
      BridgeCalculator.objGet (BridgeCalculator.calcBridgesGo years mode d acc ps) k =
        BridgeCalculator.objGet acc k := by
  intro ps
  induction ps with
  | nil => intro acc _; rw [BridgeCalculator.calcBridgesGo]
  | cons p ps ih =>
    intro acc hk
    obtain ⟨A, B⟩ := p
    rw [BridgeCalculator.calcBridgesGo]
    rcases hA : BridgeCalculator.objGet years A.fiscalYear with _ | pyA
    · simp only [hA]
      exact ih _ (fun q hq => hk q (List.mem_cons_of_mem _ hq))
    · rcases hB : BridgeCalculator.objGet years B.fiscalYear with _ | cyB
      · simp only [hA, hB]
        exact ih _ (fun q hq => hk q (List.mem_cons_of_mem _ hq))
      · simp only [hA, hB]
        rw [ih _ (fun q hq => hk q (List.mem_cons_of_mem _ hq))]
        rw [objGet_objSet_ne _ _ _
          (fun hh => hk (A, B) (List.mem_cons_self _ _) hh.symm)]

/-- C7: In multi-year mode, for every bucket and every consecutive pair
(yearA, yearB) of the selected fiscal years (an element of the zip of the
fiscal-year list with its tail) whose accumulators are both present in the
bucket, the bridge stored under the key `"{yearA}-{yearB}"` carries exactly
the totalChange, priceImpact, volumeImpact, mixImpact, costImpact and
new/discontinued flags of the two-period bucket computation applied with
py = the yearA accumulator and cy = the yearB accumulator under the same
mode and GM price definition; and no bridge entry is stored under the key
of any pair (a, b) that is not a consecutive pair of the selected years. -/
theorem c7_multi_year_refinement (bucket : BridgeCalculator.MYBucket) (mode : Mode) (d : GmPriceDef)
    (fys : List FYConfig) :
    (∀ A B, (A, B) ∈ fys.zip fys.tail →
      ∀ pyAcc cyAcc, BridgeCalculator.objGet bucket.years A.fiscalYear = some pyAcc →
        BridgeCalculator.objGet bucket.years B.fiscalYear = some cyAcc →
        BridgeCalculator.objGet
            (BridgeCalculator.calculateMultiYearBucket bucket mode d fys).bridges
            (BridgeCalculator.bridgeKey A.fiscalYear B.fiscalYear) =
          some (BridgeCalculator.bucketEntryOf
            (BridgeCalculator.calculateBucket
              ⟨bucket.lodKey, bucket.dimensions, pyAcc, cyAcc⟩ mode d))) ∧
    (∀ a b : ℤ,
      (∀ p ∈ fys.zip fys.tail, ¬(p.1.fiscalYear = a ∧ p.2.fiscalYear = b)) →
      BridgeCalculator.objGet
          (BridgeCalculator.calculateMultiYearBucket bucket mode d fys).bridges
          (BridgeCalculator.bridgeKey a b) = none) := by
  constructor
  · intro A B hm pyAcc cyAcc hpy hcy
    have hAf : A ∈ fys := (List.mem_zip hm).1
    have hBf : B ∈ fys := List.mem_of_mem_tail (List.mem_zip hm).2
    have hpy2 := calcYears_present bucket mode d fys A hAf pyAcc hpy
    have hcy2 := calcYears_present bucket mode d fys B hBf cyAcc hcy
    show BridgeCalculator.objGet
        (BridgeCalculator.calcBridgesGo (BridgeCalculator.calcYears bucket mode d fys)
          mode d [] (fys.zip fys.tail))
        (BridgeCalculator.bridgeKey A.fiscalYear B.fiscalYear) = _
    rw [calcBridges_present _ mode d A B _ _ hpy2 hcy2 _ [] hm]
    rw [mkBridgeEntry_eq_bucket bucket.lodKey bucket.dimensions pyAcc cyAcc mode d]
  · intro a b hnc
    show BridgeCalculator.objGet
        (BridgeCalculator.calcBridgesGo (BridgeCalculator.calcYears bucket mode d fys)
          mode d [] (fys.zip fys.tail))
        (BridgeCalculator.bridgeKey a b) = none
    rw [calcBridges_absent _ mode d _ _ []
      (fun p hp hk => hnc p hp ⟨(bridgeKey_inj hk).1, (bridgeKey_inj hk).2⟩)]
    rfl
def c7wF22 : FYConfig := ⟨2022, ⟨2021, 6, 1⟩, ⟨2022, 5, 30⟩, "FY 2022", true⟩

def c7wF23 : FYConfig := ⟨2023, ⟨2022, 6, 1⟩, ⟨2023, 5, 30⟩, "FY 2023", true⟩

def c7wF24 : FYConfig := ⟨2024, ⟨2023, 6, 1⟩, ⟨2024, 5, 30⟩, "FY 2024", false⟩

def c7wBucket : BridgeCalculator.MYBucket :=
  ⟨"k", [], [(2022, ⟨10, 2, 3, 1⟩), (2023, ⟨14, 2, 5, 1⟩)]⟩

theorem c7_multi_year_refinement_witness :
    BridgeCalculator.objGet
        (BridgeCalculator.calculateMultiYearBucket c7wBucket .pvm .salesPerUnit
          [c7wF22, c7wF23, c7wF24]).bridges
        (BridgeCalculator.bridgeKey c7wF22.fiscalYear c7wF23.fiscalYear) =
      some (BridgeCalculator.bucketEntryOf
        (BridgeCalculator.calculateBucket ⟨"k", [], ⟨10, 2, 3, 1⟩, ⟨14, 2, 5, 1⟩⟩
          .pvm .salesPerUnit)) ∧
    BridgeCalculator.objGet
        (BridgeCalculator.calculateMultiYearBucket c7wBucket .pvm .salesPerUnit
          [c7wF22, c7wF23, c7wF24]).bridges
        (BridgeCalculator.bridgeKey 2022 2024) = none :=
  ⟨(c7_multi_year_refinement c7wBucket .pvm .salesPerUnit [c7wF22, c7wF23, c7wF24]).1
      c7wF22 c7wF23 (by decide) ⟨10, 2, 3, 1⟩ ⟨14, 2, 5, 1⟩ rfl rfl,
    (c7_multi_year_refinement c7wBucket .pvm .salesPerUnit [c7wF22, c7wF23, c7wF24]).2
      2022 2024 (by decide)⟩
/-- The residual starts with a digit, or with a decimal point followed by a
digit: exactly the texts on which the decimal-prefix scan finds a nonempty
mantissa. -/
def startsNum : List Char → Bool
  | [] => false
  | c :: r => c.isDigit || (decide (c = '.') && (r.headD 'x').isDigit)

theorem takeWhile_all {p : Char → Bool} : ∀ {l : List Char}, (∀ c ∈ l, p c = true) →
    l.takeWhile p = l := by
  intro l
  induction l with
  | nil => intro _; rfl
  | cons c r ih =>
    intro h
    rw [List.takeWhile_cons_of_pos (h c (List.mem_cons_self _ _))]
    rw [ih (fun x hx => h x (List.mem_cons_of_mem _ hx))]

theorem dropWhile_all {p : Char → Bool} : ∀ {l : List Char}, (∀ c ∈ l, p c = true) →
    l.dropWhile p = [] := by
  intro l
  induction l with
  | nil => intro _; rfl
  | cons c r ih =>
    intro h
    rw [List.dropWhile_cons_of_pos (h c (List.mem_cons_self _ _))]
    exact ih (fun x hx => h x (List.mem_cons_of_mem _ hx))

theorem decFullVal_all_digits {ds : List Char} (hne : ds ≠ [])
    (hall : ∀ c ∈ ds, c.isDigit = true) : (decFullVal ds).isSome = true := by
  unfold decFullVal takeDigits
  rw [takeWhile_all hall, dropWhile_all hall]
  dsimp only
  rw [if_neg (by simpa [List.isEmpty_iff] using hne)]
  rfl

theorem decFullVal_dot_digits {ds : List Char} (hne : ds ≠ [])
    (hall : ∀ c ∈ ds, c.isDigit = true) : (decFullVal ('.' :: ds)).isSome = true := by
  unfold decFullVal takeDigits
  rw [List.takeWhile_cons_of_neg (by decide), List.dropWhile_cons_of_neg (by decide)]
  dsimp only
  split
  · rename_i r heq
    have hr : ds = r := (List.cons.injEq .. ▸ heq).2
    subst hr
    rw [takeWhile_all hall, dropWhile_all hall]
    rw [if_neg (by simp [List.isEmpty_iff, hne])]
    rfl
  · rename_i hno
    exact absurd rfl (hno ds)

/-- Success of the decimal-prefix scan is exactly the digit-or-dot-digit
start condition. -/
theorem decPrefixVal_isSome_iff (b : List Char) :
    (decPrefixVal b).isSome = true ↔ startsNum b = true := by
  rcases b with _ | ⟨c, r⟩
  · simp [decPrefixVal, takeDigits, startsNum]
  · by_cases hc : c.isDigit
    · simp [decPrefixVal, takeDigits, startsNum, hc, List.takeWhile_cons]
    · rw [Bool.not_eq_true] at hc
      by_cases hcd : c = '.'
      · subst hcd
        rcases r with _ | ⟨d, r2⟩
        · simp [decPrefixVal, takeDigits, startsNum, hc]
        · by_cases hd : d.isDigit
          · simp [decPrefixVal, takeDigits, startsNum, hc, hd, List.takeWhile_cons,
              List.dropWhile_cons]
          · rw [Bool.not_eq_true] at hd
            simp [decPrefixVal, takeDigits, startsNum, hc, hd, List.takeWhile_cons,
              List.dropWhile_cons]
      · have hm : (match c :: r with
            | '.' :: r' => (List.takeWhile Char.isDigit r', List.dropWhile Char.isDigit r')
            | _ => ([], c :: r)) = ([], c :: r) := by
          split
          · rename_i r' heq
            exact absurd (List.cons.injEq .. ▸ heq).1 hcd
          · rfl
        have hnone : decPrefixVal (c :: r) = none := by
          unfold decPrefixVal takeDigits
          rw [List.takeWhile_cons_of_neg (by simp [hc]),
            List.dropWhile_cons_of_neg (by simp [hc])]
          dsimp only
          rw [hm]
          rfl
        simp [hnone, startsNum, hc, hcd]

/-- Success of the full-string literal test forces the digit-or-dot-digit
start condition. -/
theorem decFullVal_isSome_starts {p : List Char} (h : (decFullVal p).isSome = true) :
    startsNum p = true := by
  rcases p with _ | ⟨c, r⟩
  · exact absurd h (by simp [decFullVal, takeDigits])
  · by_cases hc : c.isDigit
    · simp [startsNum, hc]
    · rw [Bool.not_eq_true] at hc
      by_cases hcd : c = '.'
      · subst hcd
        rcases r with _ | ⟨d, r2⟩
        · exact absurd h (by simp [decFullVal, takeDigits, hc])
        · by_cases hd : d.isDigit
          · simp [startsNum, hc, hd]
          · rw [Bool.not_eq_true] at hd
            exact absurd h (by simp [decFullVal, takeDigits, hc, hd, List.takeWhile_cons,
              List.dropWhile_cons])
      · exfalso
        revert h
        unfold decFullVal takeDigits
        rw [List.takeWhile_cons_of_neg (by simp [hc]),
          List.dropWhile_cons_of_neg (by simp [hc])]
        dsimp only
        split
        · rename_i r' heq
          exact absurd (List.cons.injEq .. ▸ heq).1 hcd
        · simp

theorem startsNum_take {b : List Char} {j : ℕ} (h : startsNum (b.take j) = true) :
    startsNum b = true := by
  rcases b with _ | ⟨c, r⟩
  · simpa using h
  · rcases j with _ | j
    · exact absurd h (by simp [startsNum])
    · rw [List.take_succ_cons] at h
      rcases r with _ | ⟨d, r2⟩
      · simpa using h
      · rcases j with _ | j
        · simp only [List.take_zero] at h
          simp only [startsNum, List.headD] at h ⊢
          rcases Bool.or_eq_true_iff.mp h with h1 | h2
          · simp [h1]
          · exact absurd (Bool.and_eq_true_iff.mp h2).2 (by decide)
        · rw [List.take_succ_cons] at h
          simpa [startsNum, List.headD] using h

theorem startsNum_litPrefix {b : List Char} (h : startsNum b = true) :
    ∃ j, 0 < j ∧ j ≤ b.length ∧ numericLiteralBody (b.take j) = true := by
  rcases b with _ | ⟨c, r⟩
  · exact absurd h (by simp [startsNum])
  · rcases (show c.isDigit = true ∨ (c = '.' ∧ (r.headD 'x').isDigit = true) by
      simpa [startsNum] using h) with h1 | h2
    · refine ⟨((c :: r).takeWhile Char.isDigit).length, ?_, ?_, ?_⟩
      · rw [List.takeWhile_cons_of_pos h1]
        simp
      · exact (List.takeWhile_prefix _).length_le
      · rw [← List.prefix_iff_eq_take.mp (List.takeWhile_prefix _)]
        have hne : (c :: r).takeWhile Char.isDigit ≠ [] := by
          rw [List.takeWhile_cons_of_pos h1]; simp
        have hall : ∀ x ∈ (c :: r).takeWhile Char.isDigit, x.isDigit = true :=
          fun x hx => List.mem_takeWhile_imp hx
        simp [numericLiteralBody, decFullVal_all_digits hne hall]
    · obtain ⟨hcd, hhd⟩ := h2
      subst hcd
      rcases r with _ | ⟨d, r2⟩
      · exact absurd hhd (by decide)
      · simp only [List.headD] at hhd
        refine ⟨((d :: r2).takeWhile Char.isDigit).length + 1, by simp, ?_, ?_⟩
        · have hlen := ((List.takeWhile_prefix Char.isDigit).length_le :
            ((d :: r2).takeWhile Char.isDigit).length ≤ (d :: r2).length)
          simpa using Nat.succ_le_succ hlen
        · rw [List.take_succ_cons,
            ← List.prefix_iff_eq_take.mp (List.takeWhile_prefix _)]
          have hne : (d :: r2).takeWhile Char.isDigit ≠ [] := by
            rw [List.takeWhile_cons_of_pos hhd]; simp
          have hall : ∀ x ∈ (d :: r2).takeWhile Char.isDigit, x.isDigit = true :=
            fun x hx => List.mem_takeWhile_imp hx
          simp [numericLiteralBody, decFullVal_dot_digits hne hall]

/-- A nonempty numeric-literal prefix of the unsigned text exists exactly when
the text starts with Infinity or with the digit-or-dot-digit condition. -/
theorem litPrefix_iff (b : List Char) :
    (∃ j, j ≤ b.length ∧ numericLiteralBody (b.take j) = true) ↔
      (infinityChars.isPrefixOf b = true ∨ startsNum b = true) := by
  constructor
  · rintro ⟨j, hj, hlit⟩
    rcases (show b.take j = infinityChars ∨ (decFullVal (b.take j)).isSome = true by
      simpa [numericLiteralBody] using hlit) with h1 | h2
    · left
      rw [List.isPrefixOf_iff_prefix, ← h1]
      exact List.take_prefix _ _
    · right
      exact startsNum_take (decFullVal_isSome_starts h2)
  · rintro (h1 | h2)
    · refine ⟨infinityChars.length, ?_, ?_⟩
      · exact (List.isPrefixOf_iff_prefix.mp h1).length_le
      · rw [← List.prefix_iff_eq_take.mp (List.isPrefixOf_iff_prefix.mp h1)]
        simp [numericLiteralBody]
    · obtain ⟨j, _, hj2, hj3⟩ := startsNum_litPrefix h2
      exact ⟨j, hj2, hj3⟩

/-- `parseFloat` on the unsigned body succeeds exactly when the text starts
with Infinity or satisfies the digit-or-dot-digit condition. -/
theorem jsParseFloatBody_ne_nan_iff (b : List Char) (neg : Bool) :
    (jsParseFloatBody b neg ≠ .nan) ↔
      (infinityChars.isPrefixOf b = true ∨ startsNum b = true) := by
  unfold jsParseFloatBody
  by_cases hi : infinityChars.isPrefixOf b = true
  · simp [hi]
  · rw [if_neg (by simpa using hi)]
    rcases hq : decPrefixVal b with _ | q
    · constructor
      · intro hne; exact absurd rfl hne
      · rintro (h1 | h2)
        · exact absurd h1 hi
        · rw [← decPrefixVal_isSome_iff] at h2
          rw [hq] at h2
          exact absurd h2 (by simp)
    · constructor
      · intro _
        right
        rw [← decPrefixVal_isSome_iff, hq]
        rfl
      · intro _
        simp
theorem numericLiteralBody_nil : numericLiteralBody [] = false := rfl

theorem numericLiteralChars_other {c : Char} (p : List Char) (h1 : c ≠ '+') (h2 : c ≠ '-') :
    numericLiteralChars (c :: p) = numericLiteralBody (c :: p) := by
  unfold numericLiteralChars
  split
  · rename_i r heq
    exact absurd (List.cons.injEq .. ▸ heq).1 h1
  · rename_i r heq
    exact absurd (List.cons.injEq .. ▸ heq).1 h2
  · rfl

theorem numericStartB_eq (cs : List Char) :
    numericStartB cs = (List.range ((cs.dropWhile jsWhitespaceB).length + 1)).any
      (fun k => decide (0 < k) && numericLiteralChars ((cs.dropWhile jsWhitespaceB).take k)) :=
  rfl

theorem core_drop_nil (cs : List Char) (h : cs.dropWhile jsWhitespaceB = []) :
    jsParseFloatCore cs = .nan := by
  unfold jsParseFloatCore
  rw [h]
  rfl

theorem core_drop_plus (cs b : List Char) (h : cs.dropWhile jsWhitespaceB = '+' :: b) :
    jsParseFloatCore cs = jsParseFloatBody b false := by
  unfold jsParseFloatCore
  rw [h]
  rfl

theorem core_drop_minus (cs b : List Char) (h : cs.dropWhile jsWhitespaceB = '-' :: b) :
    jsParseFloatCore cs = jsParseFloatBody b true := by
  unfold jsParseFloatCore
  rw [h]
  rfl

theorem core_drop_other (cs b : List Char) (c : Char) (h : cs.dropWhile jsWhitespaceB = c :: b)
    (h1 : c ≠ '+') (h2 : c ≠ '-') : jsParseFloatCore cs = jsParseFloatBody (c :: b) false := by
  unfold jsParseFloatCore
  rw [h]
  split
  · rename_i r heq
    exact absurd (List.cons.injEq .. ▸ heq).1 h1
  · rename_i r heq
    exact absurd (List.cons.injEq .. ▸ heq).1 h2
  · rfl

theorem anyLit_cons_sign (c : Char) (b : List Char)
    (hc : ∀ p, numericLiteralChars (c :: p) = numericLiteralBody p) :
    ((List.range ((c :: b).length + 1)).any
        (fun k => decide (0 < k) && numericLiteralChars ((c :: b).take k)) = true) ↔
      ∃ j, j ≤ b.length ∧ numericLiteralBody (b.take j) = true := by
  rw [List.any_eq_true]
  constructor
  · rintro ⟨k, hkmem, hk⟩
    obtain ⟨hk0, hklit⟩ := Bool.and_eq_true_iff.mp hk
    rcases k with _ | j
    · exact absurd hk0 (by decide)
    · rw [List.take_succ_cons, hc] at hklit
      refine ⟨j, ?_, hklit⟩
      have hlt := List.mem_range.mp hkmem
      simp only [List.length_cons] at hlt
      omega
  · rintro ⟨j, hj, hlit⟩
    refine ⟨j + 1, List.mem_range.mpr (by simp only [List.length_cons]; omega), ?_⟩
    rw [Bool.and_eq_true_iff]
    refine ⟨by simp, ?_⟩
    rw [List.take_succ_cons, hc]
    exact hlit

theorem anyLit_cons_other (c : Char) (b : List Char) (h1 : c ≠ '+') (h2 : c ≠ '-') :
    ((List.range ((c :: b).length + 1)).any
        (fun k => decide (0 < k) && numericLiteralChars ((c :: b).take k)) = true) ↔
      ∃ j, j ≤ (c :: b).length ∧ numericLiteralBody ((c :: b).take j) = true := by
  rw [List.any_eq_true]
  constructor
  · rintro ⟨k, hkmem, hk⟩
    obtain ⟨hk0, hklit⟩ := Bool.and_eq_true_iff.mp hk
    rcases k with _ | j
    · exact absurd hk0 (by decide)
    · rw [List.take_succ_cons, numericLiteralChars_other _ h1 h2] at hklit
      refine ⟨j + 1, ?_, ?_⟩
      · have hlt := List.mem_range.mp hkmem
        simp only [List.length_cons] at hlt ⊢
        omega
      · rw [List.take_succ_cons]
        exact hklit
  · rintro ⟨j, hj, hlit⟩
    rcases j with _ | j
    · rw [List.take_zero, numericLiteralBody_nil] at hlit
      exact absurd hlit (by decide)
    · refine ⟨j + 1, List.mem_range.mpr (by simp only [List.length_cons] at hj ⊢; omega), ?_⟩
      rw [Bool.and_eq_true_iff]
      refine ⟨by simp, ?_⟩
      rw [List.take_succ_cons, numericLiteralChars_other _ h1 h2, ← List.take_succ_cons]
      exact hlit

/-- `parseFloat` succeeds (returns a non-NaN value) exactly when some nonempty
prefix of the whitespace-trimmed text is a numeric literal. -/
theorem jsParseFloatCore_ne_nan_iff (cs : List Char) :
    (jsParseFloatCore cs ≠ .nan) ↔ numericStartB cs = true := by
  rw [numericStartB_eq]
  rcases hr : cs.dropWhile jsWhitespaceB with _ | ⟨c, b⟩
  · rw [core_drop_nil cs hr]
    decide
  · by_cases h1 : c = '+'
    · subst h1
      rw [core_drop_plus cs b hr, jsParseFloatBody_ne_nan_iff, ← litPrefix_iff,
        anyLit_cons_sign '+' b (fun p => rfl)]
    · by_cases h2 : c = '-'
      · subst h2
        rw [core_drop_minus cs b hr, jsParseFloatBody_ne_nan_iff, ← litPrefix_iff,
          anyLit_cons_sign '-' b (fun p => rfl)]
      · rw [core_drop_other cs b c hr h1 h2, jsParseFloatBody_ne_nan_iff, ← litPrefix_iff,
          anyLit_cons_other c b h1 h2]

theorem jneg_ne_nan {x : JsNum} (h : x ≠ .nan) : jneg x ≠ .nan := by
  cases x
  · exact absurd rfl h
  · simp [jneg]
  · simp [jneg]
section
attribute [local semireducible] Rat.add Rat.mul Rat.inv Rat.sub

/-- C8 counterexample: the residual of "12x" (nothing is stripped) is not a
numeric literal, yet parseNumber returns a partially parsed 12 instead of
the parse failure the claim requires. -/
theorem c8_counterexample :
    numericLiteralChars (CSVParser.parseNumberResidual "12x").2.2 = false ∧
    CSVParser.parseNumber (some "12x") = .num 12 := by
  constructor
  · decide
  · decide

/-- C8: parseNumber strips currency symbols and comma separators, negates a
parenthesized or minus-prefixed value, and fails (NaN) exactly when the input
is empty or no nonempty prefix of the stripped residual is a numeric literal
— so a non-numeric residual never yields a silent zero, but a residual with
numeric-literal prefix followed by junk yields the partially parsed number
(for example "12x" parses to 12 and "($1,234.50)" to -1234.5, while "abc"
and the null input fail). -/
theorem c8_parse_number_failure :
    (∀ v : String, CSVParser.parseNumber (some v) = .nan ↔
      (v = "" ∨ numericStartB (CSVParser.parseNumberResidual v).2.2 = false)) ∧
    CSVParser.parseNumber none = .nan ∧
    CSVParser.parseNumber (some "($1,234.50)") = .num (-(2469 / 2 : ℚ)) ∧
    CSVParser.parseNumber (some "-$2,500") = .num (-2500) ∧
    CSVParser.parseNumber (some "abc") = .nan ∧
    CSVParser.parseNumber (some "12x") = .num 12 := by
  refine ⟨?_, rfl, by decide, by decide, by decide, by decide⟩
  intro v
  by_cases hv : v = ""
  · simp [CSVParser.parseNumber, hv]
  · rw [show CSVParser.parseNumber (some v) =
        (if v = "" then .nan
         else
           match jsParseFloatCore (CSVParser.parseNumberResidual v).2.2 with
           | .nan => .nan
           | x => if (CSVParser.parseNumberResidual v).1 ∨
               (CSVParser.parseNumberResidual v).2.1 then jneg x else x)
      from rfl]
    rw [if_neg hv]
    rcases hc : jsParseFloatCore (CSVParser.parseNumberResidual v).2.2 with _ | bb | q
    · simp only [hc]
      constructor
      · intro _
        right
        have := (jsParseFloatCore_ne_nan_iff (CSVParser.parseNumberResidual v).2.2)
        rw [hc] at this
        rcases hb : numericStartB (CSVParser.parseNumberResidual v).2.2
        · rfl
        · exact absurd (this.mpr hb) (fun hne => hne rfl)
      · intro _
        trivial
    · simp only [hc]
      have hne : jsParseFloatCore (CSVParser.parseNumberResidual v).2.2 ≠ .nan := by
        rw [hc]
        intro hx
        exact JsNum.noConfusion hx
      have hs := (jsParseFloatCore_ne_nan_iff _).mp hne
      constructor
      · intro hcontra
        exfalso
        revert hcontra
        split
        · simp [jneg]
        · simp
      · rintro (h1 | h2)
        · exact absurd h1 hv
        · rw [hs] at h2
          exact absurd h2 (by decide)
    · simp only [hc]
      have hne : jsParseFloatCore (CSVParser.parseNumberResidual v).2.2 ≠ .nan := by
        rw [hc]
        intro hx
        exact JsNum.noConfusion hx
      have hs := (jsParseFloatCore_ne_nan_iff _).mp hne
      constructor
      · intro hcontra
        exfalso
        revert hcontra
        split
        · simp [jneg]
        · simp
      · rintro (h1 | h2)
        · exact absurd h1 hv
        · rw [hs] at h2
          exact absurd h2 (by decide)

end
theorem daysInMonth_ge (y m : ℤ) : 28 ≤ daysInMonth y m := by
  unfold daysInMonth
  split_ifs <;> omega

theorem daysInMonth_le (y m : ℤ) : daysInMonth y m ≤ 31 := by
  unfold daysInMonth
  split_ifs <;> omega

theorem fdiv_small {m : ℤ} (h0 : 0 ≤ m) (h12 : m < 12) : Int.fdiv m 12 = 0 := by
  rw [Int.fdiv_eq_ediv _ (by omega)]
  omega

theorem fmod_small {m : ℤ} (h0 : 0 ≤ m) (h12 : m < 12) : Int.fmod m 12 = m := by
  rw [Int.fmod_eq_emod _ (by omega)]
  omega

theorem mkDate_day1 (y mi : ℤ) (hy : ¬(0 ≤ y ∧ y ≤ 99)) (hmi : 0 ≤ mi) (hmi2 : mi < 12) :
    mkDate y mi 1 = ⟨y, mi + 1, 1⟩ := by
  unfold mkDate
  rw [if_neg hy, fdiv_small hmi hmi2, fmod_small hmi hmi2,
    if_neg (by omega : ¬(1 : ℤ) < 1)]
  show normDown (1 : ℤ).toNat (y + 0) (mi + 1) 1 = ⟨y, mi + 1, 1⟩
  rw [show ((1 : ℤ)).toNat = 1 from rfl, add_zero]
  unfold normDown
  rw [if_neg (by have := daysInMonth_ge y (mi + 1); omega)]

theorem mkDate_day0 (y mi : ℤ) (hy : ¬(0 ≤ y ∧ y ≤ 99)) (hmi : 1 ≤ mi) (hmi2 : mi < 12) :
    mkDate y mi 0 = ⟨y, mi, daysInMonth y mi⟩ := by
  unfold mkDate
  rw [if_neg hy, fdiv_small (by omega) hmi2, fmod_small (by omega) hmi2,
    if_pos (by omega : (0 : ℤ) < 1)]
  show normUp ((1 : ℤ) - 0).toNat (y + 0) (mi + 1) 0 = ⟨y, mi, daysInMonth y mi⟩
  rw [show ((1 : ℤ) - 0).toNat = 1 from rfl, add_zero]
  unfold normUp
  rw [if_pos (by omega : (0 : ℤ) < 1), if_neg (by omega : ¬mi + 1 = 1),
    if_neg (by omega : ¬mi + 1 = 1)]
  show JsDate.mk y (mi + 1 - 1) (0 + daysInMonth y (mi + 1 - 1)) = _
  norm_num

theorem mkDate_dec0 (y : ℤ) (hy : ¬(0 ≤ y ∧ y ≤ 99)) : mkDate y 12 0 = ⟨y, 12, 31⟩ := by
  unfold mkDate
  rw [if_neg hy, show Int.fdiv 12 12 = 1 from rfl, show Int.fmod 12 12 = 0 from rfl,
    if_pos (by omega : (0 : ℤ) < 1)]
  show normUp ((1 : ℤ) - 0).toNat (y + 1) (0 + 1) 0 = ⟨y, 12, 31⟩
  rw [show ((1 : ℤ) - 0).toNat = 1 from rfl]
  unfold normUp
  rw [if_pos (by omega : (0 : ℤ) < 1), if_pos (by omega : (0 : ℤ) + 1 = 1),
    if_pos (by omega : (0 : ℤ) + 1 = 1)]
  show JsDate.mk (y + 1 - 1) 12 (0 + daysInMonth (y + 1 - 1) 12) = _
  have hd : daysInMonth (y + 1 - 1) 12 = 31 := by
    unfold daysInMonth
    rw [if_neg (by omega : ¬(12 : ℤ) = 2), if_neg (by omega :
      ¬((12 : ℤ) = 4 ∨ (12 : ℤ) = 6 ∨ (12 : ℤ) = 9 ∨ (12 : ℤ) = 11))]
  rw [hd]
  norm_num

/-- The fiscal-year range, evaluated: for December year end the calendar
year, otherwise from the first of the month after the year-end month of the
preceding calendar year to the last day of the year-end month. -/
theorem getFiscalYearRange_eq (F m : ℤ) (hm1 : 1 ≤ m) (hm12 : m ≤ 12) (hF : 101 ≤ F) :
    PeriodUtils.getFiscalYearRange F m =
      if m = 12 then ⟨⟨F, 1, 1⟩, ⟨F, 12, 31⟩⟩
      else ⟨⟨F - 1, m + 1, 1⟩, ⟨F, m, daysInMonth F m⟩⟩ := by
  unfold PeriodUtils.getFiscalYearRange
  by_cases h12 : m = 12
  · subst h12
    rw [if_pos rfl, if_pos rfl, mkDate_day1 F 0 (by omega) (by omega) (by omega),
      mkDate_dec0 F (by omega)]
    norm_num
  · rw [if_neg h12, if_neg h12]
    rw [show m + 1 - 1 = m from by ring]
    rw [mkDate_day1 (F - 1) m (by omega) (by omega) (by omega),
      mkDate_day0 F m (by omega) hm1 (by omega)]

theorem getFiscalYear_cases (d : JsDate) (m : ℤ) :
    (d.month > m ∧ PeriodUtils.getFiscalYear d m = d.year + 1) ∨
    (¬d.month > m ∧ PeriodUtils.getFiscalYear d m = d.year) := by
  unfold PeriodUtils.getFiscalYear
  split_ifs with h
  · exact Or.inl ⟨h, rfl⟩
  · exact Or.inr ⟨h, rfl⟩

theorem getFiscalYear_mono {a b : JsDate} (m : ℤ) (h : jsDateLe a b = true) :
    PeriodUtils.getFiscalYear a m ≤ PeriodUtils.getFiscalYear b m := by
  simp only [jsDateLe, decide_eq_true_eq] at h
  unfold PeriodUtils.getFiscalYear
  split_ifs <;> omega
theorem getFiscalYear_mem_range {d : JsDate} {m F : ℤ} (hv : d.Valid) (hm1 : 1 ≤ m)
    (hm12 : m ≤ 12) (hF : 101 ≤ F) (hgf : PeriodUtils.getFiscalYear d m = F) :
    jsDateLe (PeriodUtils.getFiscalYearRange F m).start d = true ∧
    jsDateLe d (PeriodUtils.getFiscalYearRange F m).endDate = true := by
  rw [getFiscalYearRange_eq F m hm1 hm12 hF]
  obtain ⟨hv1, hv2, hv3, hv4⟩ := hv
  have hd28 := daysInMonth_ge d.year d.month
  have hd31 := daysInMonth_le d.year d.month
  have hgc := getFiscalYear_cases d m
  rw [hgf] at hgc
  by_cases h12 : m = 12
  · subst h12
    rw [if_pos rfl]
    constructor <;> (simp only [jsDateLe, decide_eq_true_eq]) <;> omega
  · rw [if_neg h12]
    have hdF28 := daysInMonth_ge F m
    constructor <;> (simp only [jsDateLe, decide_eq_true_eq])
    · rcases hgc with ⟨ha, hb⟩ | ⟨ha, hb⟩ <;> omega
    · rcases hgc with ⟨ha, hb⟩ | ⟨ha, hb⟩
      · omega
      · right
        refine ⟨by omega, ?_⟩
        rcases lt_or_eq_of_le (show d.month ≤ m from by omega) with hlt | heq
        · exact Or.inl hlt
        · refine Or.inr ⟨heq, ?_⟩
          rw [← hb, heq] at hv4
          exact hv4

theorem mem_range_getFiscalYear {d : JsDate} {m F : ℤ} (hm1 : 1 ≤ m) (hm12 : m ≤ 12)
    (hF : 101 ≤ F)
    (h1 : jsDateLe (PeriodUtils.getFiscalYearRange F m).start d = true)
    (h2 : jsDateLe d (PeriodUtils.getFiscalYearRange F m).endDate = true) :
    PeriodUtils.getFiscalYear d m = F := by
  rw [getFiscalYearRange_eq F m hm1 hm12 hF] at h1 h2
  have hgc := getFiscalYear_cases d m
  by_cases h12 : m = 12
  · subst h12
    rw [if_pos rfl] at h1 h2
    simp only [jsDateLe, decide_eq_true_eq] at h1 h2
    rcases hgc with ⟨ha, hb⟩ | ⟨ha, hb⟩ <;> omega
  · rw [if_neg h12] at h1 h2
    simp only [jsDateLe, decide_eq_true_eq] at h1 h2
    have hdF28 := daysInMonth_ge F m
    have hdF31 := daysInMonth_le F m
    rcases hgc with ⟨ha, hb⟩ | ⟨ha, hb⟩ <;> omega

/-- Membership in the discovered list is exactly the closed fiscal-year
interval between the fiscal years of the two endpoints. -/
theorem detectFiscalYears_mem_iff (minD maxD : JsDate) (m F : ℤ) :
    (∃ cfg ∈ PeriodUtils.detectFiscalYears minD maxD m, cfg.fiscalYear = F) ↔
      (PeriodUtils.getFiscalYear minD m ≤ F ∧ F ≤ PeriodUtils.getFiscalYear maxD m) := by
  unfold PeriodUtils.detectFiscalYears
  constructor
  · rintro ⟨cfg, hmem, hF⟩
    obtain ⟨j, hj, hcfg⟩ := List.mem_map.mp hmem
    rw [List.mem_range] at hj
    subst hcfg
    dsimp only at hF
    omega
  · rintro ⟨hlo, hhi⟩
    refine ⟨_, List.mem_map.mpr ⟨(F - PeriodUtils.getFiscalYear minD m).toNat,
      List.mem_range.mpr (by omega), rfl⟩, ?_⟩
    dsimp only
    omega
theorem jsDateLe_refl (d : JsDate) : jsDateLe d d = true := by
  simp [jsDateLe]

theorem jsDateLe_trans {a b c : JsDate} (h1 : jsDateLe a b = true)
    (h2 : jsDateLe b c = true) : jsDateLe a c = true := by
  simp only [jsDateLe, decide_eq_true_eq] at h1 h2 ⊢
  omega

theorem detectFiscalYears_chain (minD maxD : JsDate) (m : ℤ) :
    List.Chain' (fun a b => a.fiscalYear + 1 = b.fiscalYear)
      (PeriodUtils.detectFiscalYears minD maxD m) := by
  rw [List.chain'_iff_get]
  unfold PeriodUtils.detectFiscalYears
  intro i hi
  simp only [List.length_map, List.length_range] at hi
  simp only [List.get_eq_getElem, List.getElem_map, List.getElem_range]
  omega

theorem detectFiscalYears_fields (minD maxD : JsDate) (m : ℤ)
    (cfg : FYConfig) (hmem : cfg ∈ PeriodUtils.detectFiscalYears minD maxD m) :
    cfg.start = (PeriodUtils.getFiscalYearRange cfg.fiscalYear m).start ∧
    cfg.endDate = (PeriodUtils.getFiscalYearRange cfg.fiscalYear m).endDate ∧
    cfg.fullyCovered = (jsDateLe minD (PeriodUtils.getFiscalYearRange cfg.fiscalYear m).start &&
      jsDateLe (PeriodUtils.getFiscalYearRange cfg.fiscalYear m).endDate maxD) ∧
    PeriodUtils.getFiscalYear minD m ≤ cfg.fiscalYear ∧
    cfg.fiscalYear ≤ PeriodUtils.getFiscalYear maxD m := by
  unfold PeriodUtils.detectFiscalYears at hmem
  obtain ⟨j, hj, hcfg⟩ := List.mem_map.mp hmem
  rw [List.mem_range] at hj
  subst hcfg
  refine ⟨rfl, rfl, rfl, ?_, ?_⟩ <;> (try dsimp only) <;> omega

theorem range_start_valid (F m : ℤ) (hm1 : 1 ≤ m) (hm12 : m ≤ 12) (hF : 101 ≤ F) :
    ((PeriodUtils.getFiscalYearRange F m).start).Valid ∧
    jsDateLe (PeriodUtils.getFiscalYearRange F m).start
      (PeriodUtils.getFiscalYearRange F m).endDate = true := by
  rw [getFiscalYearRange_eq F m hm1 hm12 hF]
  by_cases h12 : m = 12
  · rw [if_pos h12]
    constructor
    · have := daysInMonth_ge F 1
      dsimp only [JsDate.Valid]
      omega
    · simp only [jsDateLe, decide_eq_true_eq]
      norm_num
  · rw [if_neg h12]
    constructor
    · have := daysInMonth_ge (F - 1) (m + 1)
      dsimp only [JsDate.Valid]
      omega
    · simp only [jsDateLe, decide_eq_true_eq]
      exact Or.inl (by omega)

theorem getFiscalYear_ge_year (d : JsDate) (m : ℤ) :
    d.year ≤ PeriodUtils.getFiscalYear d m := by
  rcases getFiscalYear_cases d m with ⟨_, hb⟩ | ⟨_, hb⟩ <;> omega

theorem minD_le_range_start {minD : JsDate} {m F : ℤ} (hvmin : minD.Valid)
    (hm1 : 1 ≤ m) (hm12 : m ≤ 12) (hF : 101 ≤ F)
    (hlt : PeriodUtils.getFiscalYear minD m < F) :
    jsDateLe minD (PeriodUtils.getFiscalYearRange F m).start = true := by
  rw [getFiscalYearRange_eq F m hm1 hm12 hF]
  obtain ⟨hv1, hv2, hv3, hv4⟩ := hvmin
  by_cases h12 : m = 12
  · subst h12
    rw [if_pos rfl]
    simp only [jsDateLe, decide_eq_true_eq]
    rcases getFiscalYear_cases minD 12 with ⟨ha, hb⟩ | ⟨ha, hb⟩ <;> omega
  · rw [if_neg h12]
    simp only [jsDateLe, decide_eq_true_eq]
    rcases getFiscalYear_cases minD m with ⟨ha, hb⟩ | ⟨ha, hb⟩ <;> omega

theorem range_start_le_maxD {maxD : JsDate} {m F : ℤ} (hvmax : maxD.Valid)
    (hm1 : 1 ≤ m) (hm12 : m ≤ 12) (hF : 101 ≤ F)
    (hle : F ≤ PeriodUtils.getFiscalYear maxD m) :
    jsDateLe (PeriodUtils.getFiscalYearRange F m).start maxD = true := by
  rw [getFiscalYearRange_eq F m hm1 hm12 hF]
  obtain ⟨hv1, hv2, hv3, hv4⟩ := hvmax
  by_cases h12 : m = 12
  · subst h12
    rw [if_pos rfl]
    simp only [jsDateLe, decide_eq_true_eq]
    rcases getFiscalYear_cases maxD 12 with ⟨ha, hb⟩ | ⟨ha, hb⟩ <;> omega
  · rw [if_neg h12]
    simp only [jsDateLe, decide_eq_true_eq]
    rcases getFiscalYear_cases maxD m with ⟨ha, hb⟩ | ⟨ha, hb⟩ <;> omega

/-- C9: the fiscal-year discovery operation returns exactly the fiscal years
whose ranges intersect the observed data range [min, max] (witnessed by a
shared valid date), in consecutive year order, and each entry carries its
fiscal-year range and is tagged fullyCovered precisely when every date of
that fiscal-year range lies inside [min, max]. -/
theorem c9_detect_fiscal_years (minD maxD : JsDate) (m : ℤ)
    (hvmin : minD.Valid) (hvmax : maxD.Valid) (hm1 : 1 ≤ m) (hm12 : m ≤ 12)
    (hord : jsDateLe minD maxD = true) (h101 : 101 ≤ minD.year) :
    (∀ F : ℤ, 101 ≤ F →
      ((∃ cfg ∈ PeriodUtils.detectFiscalYears minD maxD m, cfg.fiscalYear = F) ↔
        ∃ d : JsDate, d.Valid ∧
          jsDateLe (PeriodUtils.getFiscalYearRange F m).start d = true ∧
          jsDateLe d (PeriodUtils.getFiscalYearRange F m).endDate = true ∧
          jsDateLe minD d = true ∧ jsDateLe d maxD = true)) ∧
    List.Chain' (fun a b => a.fiscalYear + 1 = b.fiscalYear)
      (PeriodUtils.detectFiscalYears minD maxD m) ∧
    (∀ cfg ∈ PeriodUtils.detectFiscalYears minD maxD m,
      cfg.start = (PeriodUtils.getFiscalYearRange cfg.fiscalYear m).start ∧
      cfg.endDate = (PeriodUtils.getFiscalYearRange cfg.fiscalYear m).endDate ∧
      (cfg.fullyCovered = true ↔
        ∀ d : JsDate,
          jsDateLe (PeriodUtils.getFiscalYearRange cfg.fiscalYear m).start d = true →
          jsDateLe d (PeriodUtils.getFiscalYearRange cfg.fiscalYear m).endDate = true →
          jsDateLe minD d = true ∧ jsDateLe d maxD = true)) := by
  have hlo101 : 101 ≤ PeriodUtils.getFiscalYear minD m := by
    have := getFiscalYear_ge_year minD m
    omega
  refine ⟨?_, detectFiscalYears_chain minD maxD m, ?_⟩
  · intro F hF101
    rw [detectFiscalYears_mem_iff]
    constructor
    · rintro ⟨hlo, hhi⟩
      by_cases hFlo : F = PeriodUtils.getFiscalYear minD m
      · have hmr := getFiscalYear_mem_range hvmin hm1 hm12 hF101 hFlo.symm
        exact ⟨minD, hvmin, hmr.1, hmr.2, jsDateLe_refl minD, hord⟩
      · have hlt : PeriodUtils.getFiscalYear minD m < F := by omega
        obtain ⟨hsv, hse⟩ := range_start_valid F m hm1 hm12 hF101
        refine ⟨(PeriodUtils.getFiscalYearRange F m).start, hsv, jsDateLe_refl _, hse,
          minD_le_range_start hvmin hm1 hm12 hF101 hlt,
          range_start_le_maxD hvmax hm1 hm12 hF101 hhi⟩
    · rintro ⟨d, hdv, hd1, hd2, hdmin, hdmax⟩
      have hgfd := mem_range_getFiscalYear hm1 hm12 hF101 hd1 hd2
      have hmo1 := getFiscalYear_mono m hdmin
      have hmo2 := getFiscalYear_mono m hdmax
      rw [hgfd] at hmo1 hmo2
      exact ⟨hmo1, hmo2⟩
  · intro cfg hmem
    obtain ⟨hs, he, hfc, hblo, hbhi⟩ := detectFiscalYears_fields minD maxD m cfg hmem
    have hcf101 : 101 ≤ cfg.fiscalYear := by omega
    obtain ⟨hsv, hse⟩ := range_start_valid cfg.fiscalYear m hm1 hm12 hcf101
    refine ⟨hs, he, ?_⟩
    rw [hfc]
    constructor
    · intro hb
      obtain ⟨hb1, hb2⟩ := Bool.and_eq_true_iff.mp hb
      intro d hd1 hd2
      exact ⟨jsDateLe_trans hb1 hd1, jsDateLe_trans hd2 hb2⟩
    · intro hcov
      rw [Bool.and_eq_true_iff]
      exact ⟨(hcov _ (jsDateLe_refl _) hse).1, (hcov _ hse (jsDateLe_refl _)).2⟩

theorem c9_detect_fiscal_years_witness :
    List.Chain' (fun a b => a.fiscalYear + 1 = b.fiscalYear)
      (PeriodUtils.detectFiscalYears ⟨2022, 3, 15⟩ ⟨2024, 8, 10⟩ 6) :=
  (c9_detect_fiscal_years ⟨2022, 3, 15⟩ ⟨2024, 8, 10⟩ 6 (by decide) (by decide)
    (by decide) (by decide) (by decide) (by decide)).2.1
